import Mathlib

/-!
Verification of the dense-matrix engine of `matrix-centipede`.

The C++ sources under `src/include/dense_matrix.{hpp,tpp}` and
`src/src/dense_matrix_api.cpp` are shallowly embedded below:

* `size_t` becomes `Nat`; the overflow guard of `safe_count` tests against
  `USIZE_MAX = 2^64 - 1` explicitly, exactly as the source compares
  `cols > static_cast<size_t>(-1) / rows`.
* the scalar template parameter `T` becomes a type `α` with the capabilities
  the `matmul_scalar` concept demands (default/zero element, `+`, `*`, `==`);
  we carry `[AddCommMonoid α] [Mul α]`, which is the "exact arithmetic"
  reading used by the specification for integer scalars.  `sizeof(T)` and the
  `std::is_same_v<T, double>` test, which the element type alone cannot
  provide, are bundled in a `scalar_info` parameter.
* `std::vector<T>` storage becomes `List α`; pointer reads `p[i]` become
  `List.getD v i 0` and pointer writes become `List.set`; `for` loops become
  `List.foldl` over the exact index sequences the source iterates
  (`block_list` reproduces `for (i0 = 0; i0 < hi; i0 += tile)`, and
  `unroll4` reproduces the manually 4-way unrolled innermost loops).
* `throw` becomes the explicit result type `dm_res`; functions that C++
  declares `noexcept` stay plain.
* the double-precision computation inside `optimal_tile` is embedded exactly:
  `static_cast<size_t>(std::sqrt(32768.0 / (3.0 * sizeof(T))))` equals
  `Nat.sqrt (32768 / (3 * sizeof))` because `⌊√x⌋ = ⌊√⌊x⌋⌋` and, for these
  magnitudes (quotient ≤ 32768/3, numerator 2^15 never divisible by 3·s·m²),
  the two double roundings cannot cross an integer boundary.
-/

/-- The value `static_cast<size_t>(-1)`: the largest address-width unsigned integer. -/
def USIZE_MAX : Nat := 2 ^ 64 - 1

/-- The exceptions thrown by the dense-matrix engine. -/
inductive dm_error where
  | invalid_argument (msg : String)
  | overflow_error (msg : String)
  | out_of_range (msg : String)
deriving DecidableEq

/-- Result of an engine operation: a value, or the exception that was thrown. -/
inductive dm_res (α : Type) where
  | ok (val : α)
  | error (e : dm_error)
deriving DecidableEq

namespace dm_res

def bind {α β : Type} : dm_res α → (α → dm_res β) → dm_res β
  | .ok v, f => f v
  | .error e, _ => .error e

def map {α β : Type} (f : α → β) : dm_res α → dm_res β
  | .ok v => .ok (f v)
  | .error e => .error e

end dm_res

/-- Embeds `dm::safe_count`: guards `rows * cols` against `size_t` wrap-around

    if (rows != 0 && cols > (static_cast<size_t>(-1) / rows))
        throw std::overflow_error("rows*cols overflows size_t");
    return rows * cols; -/
def safe_count (rows cols : Nat) : dm_res Nat :=
  if rows ≠ 0 ∧ cols > USIZE_MAX / rows then
    .error (.overflow_error "rows*cols overflows size_t")
  else
    .ok (rows * cols)

/-- The compile-time facts about the scalar type `T` that the element type of
the embedding cannot supply: `sizeof(T)` and `std::is_same_v<T, double>`. -/
structure scalar_info where
  bytes : Nat
  is_double : Bool
deriving DecidableEq

/-- Embeds `dm::dense_matrix<T>`: row-major contiguous storage. -/
structure dense_matrix (α : Type) where
  row_count : Nat
  col_count : Nat
  values : List α
deriving DecidableEq

namespace dense_matrix

variable {α : Type}

/-- Embeds `size()`: the number of stored elements, `values.size()`. -/
def size (x : dense_matrix α) : Nat := x.values.length

/-- Embeds `index_of(r, c)`: flat row-major index. -/
def index_of (x : dense_matrix α) (r c : Nat) : Nat := r * x.col_count + c

/-- The unchecked accessor `operator()(r, c)`: reads `values[r*col_count+c]`.
Out-of-bounds reads are undefined behaviour in the source; the embedding
totalises them with the default element. -/
def get [Zero α] (x : dense_matrix α) (r c : Nat) : α :=
  x.values.getD (x.index_of r c) 0

/-- The class invariant every constructed matrix maintains:
`values.size() == rows*cols`, and that product did not overflow `size_t`. -/
def WF (x : dense_matrix α) : Prop :=
  x.values.length = x.row_count * x.col_count ∧
    x.row_count * x.col_count ≤ USIZE_MAX

instance (x : dense_matrix α) : Decidable x.WF := by
  unfold WF; infer_instance

/-- Embeds `dense_matrix(rows, cols)`: shape-only constructor, value-initialising
(`= zero`) cells after `safe_count` has validated the element count. -/
def mk_default [Zero α] (rows cols : Nat) : dm_res (dense_matrix α) :=
  (safe_count rows cols).map fun n => ⟨rows, cols, List.replicate n 0⟩

/-- Embeds `dense_matrix(rows, cols, const T* data)`: the raw pointer is an
`Option (Nat → α)` (`none` = null); a non-null pointer is a total view of the
caller's buffer, from which `rows*cols` elements are copied. -/
def mk_from_ptr [Zero α] (rows cols : Nat) (data : Option (Nat → α)) :
    dm_res (dense_matrix α) :=
  (safe_count rows cols).bind fun n =>
    if n ≠ 0 ∧ data.isNone then
      .error (.invalid_argument "null data pointer for non-empty matrix")
    else
      .ok ⟨rows, cols,
        match data with
        | some f => (List.range n).map f
        | none => []⟩

/-- Embeds `dense_matrix(rows, cols, std::initializer_list<T> init)`. -/
def mk_from_init [Zero α] (rows cols : Nat) (init : List α) :
    dm_res (dense_matrix α) :=
  (safe_count rows cols).bind fun n =>
    if init.length ≠ n then
      .error (.invalid_argument "initializer_list size mismatch")
    else
      .ok ⟨rows, cols, init⟩

/-- Embeds `dense_matrix::optimal_tile(m, n, k)`, embedded statement by statement:

    tile = (size_t)sqrt(32768.0 / (3.0 * sizeof(T)));
    vec  = is_double ? 8 : 16;
    if (tile < vec) tile = vec;
    tile = (tile / vec) * vec;
    if (tile > 256) tile = 256;
    if (m) tile = min(tile, m);
    if (n) tile = min(tile, n);
    if (k) tile = min(tile, k);
    if (tile == 0) tile = vec; -/
def optimal_tile (si : scalar_info) (m n k : Nat) : Nat :=
  let raw := Nat.sqrt (32 * 1024 / (3 * si.bytes))
  let vec := if si.is_double then 8 else 16
  let t1 := if raw < vec then vec else raw
  let t2 := (t1 / vec) * vec
  let t3 := if t2 > 256 then 256 else t2
  let t4 := if m ≠ 0 then min t3 m else t3
  let t5 := if n ≠ 0 then min t4 n else t4
  let t6 := if k ≠ 0 then min t5 k else t5
  if t6 = 0 then vec else t6

/-- Embeds `dense_matrix::add(a, b)` (the static elementwise sum).
`std::ranges::transform(a.values, b.values, out.values.begin(), plus)`
becomes `zipWith`; by the class invariant it fills `out` completely. -/
def add [AddCommMonoid α] (a b : dense_matrix α) : dm_res (dense_matrix α) :=
  if a.size = 0 then .ok b
  else if b.size = 0 then .ok a
  else if a.row_count ≠ b.row_count ∨ a.col_count ≠ b.col_count then
    .error (.invalid_argument "dense_matrix::add: shape mismatch")
  else
    (mk_default (α := α) a.row_count a.col_count).map fun out =>
      ⟨out.row_count, out.col_count, List.zipWith (· + ·) a.values b.values⟩

/-- Embeds `dense_matrix::operator+=(rhs)`, in state-passing form: the first
component is the receiver's storage after the call returns or the exception
escapes, the second is the exception (if any).

    if (rhs.size() == 0)      return *this;
    if (values.empty())       { adopt rhs; return *this; }
    if (shape mismatch)       throw std::invalid_argument(...);
    for (i < n) dst[i] += src[i]; -/
def add_assign [AddCommMonoid α] (self rhs : dense_matrix α) :
    dense_matrix α × Option dm_error :=
  if rhs.size = 0 then (self, none)
  else if self.values.isEmpty then
    (⟨rhs.row_count, rhs.col_count, rhs.values⟩, none)
  else if self.row_count ≠ rhs.row_count ∨ self.col_count ≠ rhs.col_count then
    (self, some (.invalid_argument "dense_matrix::operator+=: shape mismatch"))
  else
    (⟨self.row_count, self.col_count,
      (List.range self.values.length).foldl
        (fun v i => v.set i (v.getD i 0 + rhs.values.getD i 0)) self.values⟩,
      none)

/-- The loop `for (i0 = 0; i0 < hi; i0 += step)` produces the blocks
`(i0, min(i0 + step, hi))`; `block_list step hi i0` is the list of the
remaining blocks when the loop counter stands at `i0`.  (A zero step, which
would not terminate in C++, yields the empty list; every call site supplies a
positive step.) -/
def block_list (step hi i0 : Nat) : List (Nat × Nat) :=
  if _h : 0 < step ∧ i0 < hi then
    (i0, min (i0 + step) hi) :: block_list step hi (i0 + step)
  else []
termination_by hi - i0
decreasing_by omega

/-- The index sequence of the manually 4-way unrolled innermost loops of the
blocked kernels: groups of four offsets up to `w - w % 4`, then the tail. -/
def unroll4 (w : Nat) : List Nat :=
  ((List.range ((w - w % 4) / 4)).flatMap fun g =>
    [4 * g, 4 * g + 1, 4 * g + 2, 4 * g + 3]) ++
    List.range' (w - w % 4) (w % 4)

/-- Embeds `dense_matrix::transpose()`: plain transpose, `b[j*m + i] = a[i*n + j]`. -/
def transpose [AddCommMonoid α] (x : dense_matrix α) :
    dm_res (dense_matrix α) :=
  let m := x.row_count
  let n := x.col_count
  (mk_default n m).map fun t =>
    ⟨n, m,
      (List.range n).foldl (fun b j =>
        (List.range m).foldl (fun b i =>
          b.set (j * m + i) (x.values.getD (i * n + j) 0)) b) t.values⟩

/-- Embeds `dense_matrix::transpose_tile(tile)`: blocked transpose.  The
single-row/column branch performs `std::ranges::copy(values, t.begin())`,
which by the class invariant fills `t` exactly. -/
def transpose_tile [AddCommMonoid α] (si : scalar_info) (x : dense_matrix α)
    (tile : Nat) : dm_res (dense_matrix α) :=
  let m := x.row_count
  let n := x.col_count
  (mk_default n m).map fun t =>
    if m = 0 ∨ n = 0 then t
    else if m = 1 ∨ n = 1 then ⟨n, m, x.values⟩
    else
      let tl := if tile = 0 then optimal_tile si n m 0 else tile
      ⟨n, m,
        (block_list tl n 0).foldl (fun b bj =>
          (block_list tl m 0).foldl (fun b bi =>
            (List.range' bj.1 (bj.2 - bj.1)).foldl (fun b j =>
              (List.range' bi.1 (bi.2 - bi.1)).foldl (fun b i =>
                b.set (j * m + i) (x.values.getD (i * n + j) 0)) b) b) b)
          t.values⟩

/-- Embeds `dense_matrix::mul_native(a, b)`: i-p-j triple loop accumulating
`c[i*n+j] += a[i*k+p] * b[p*n+j]` (the hoisted `a_ip` is inlined). -/
def mul_native [AddCommMonoid α] [Mul α] (a b : dense_matrix α) :
    dm_res (dense_matrix α) :=
  let m := a.row_count
  let k := a.col_count
  let n := b.col_count
  (mk_default m n).map fun out =>
    if out.size = 0 then out
    else
      ⟨m, n,
        (List.range m).foldl (fun c i =>
          (List.range k).foldl (fun c p =>
            (List.range n).foldl (fun c j =>
              c.set (i * n + j)
                (c.getD (i * n + j) 0 +
                  a.values.getD (i * k + p) 0 * b.values.getD (p * n + j) 0))
              c) c) out.values⟩

/-- Embeds `dense_matrix::mul_transpose(a, b, tile)`: transposes `b` (always through
`transpose_tile`, per the source) and fills each output cell with the dot
product `sum = sum + a[i*k+p] * bt[j*k+p]` started from the value-initialised
`T sum {}`. -/
def mul_transpose [AddCommMonoid α] [Mul α] (si : scalar_info)
    (a b : dense_matrix α) (tile : Nat) : dm_res (dense_matrix α) :=
  let m := a.row_count
  let k := a.col_count
  let n := b.col_count
  (mk_default m n).bind fun out =>
    if out.size = 0 then .ok out
    else
      (transpose_tile si b tile).map fun bt =>
        ⟨m, n,
          (List.range m).foldl (fun c i =>
            (List.range n).foldl (fun c j =>
              c.set (i * n + j)
                ((List.range k).foldl (fun s p =>
                  s + a.values.getD (i * k + p) 0 *
                    bt.values.getD (j * k + p) 0) 0)) c) out.values⟩

/-- Embeds `dense_matrix::mul_block_ijp(a, b, tile)`: square tiling of i, j and p,
blocks iterated i0-j0-p0, then `i`, `p`, and the 4-way unrolled walk across
the block row `[j0, j1)`. -/
def mul_block_ijp [AddCommMonoid α] [Mul α] (si : scalar_info)
    (a b : dense_matrix α) (tile : Nat) : dm_res (dense_matrix α) :=
  let m := a.row_count
  let k := a.col_count
  let n := b.col_count
  let tl := if tile = 0 then optimal_tile si n m k else tile
  (mk_default m n).map fun out =>
    if out.size = 0 then out
    else
      ⟨m, n,
        (block_list tl m 0).foldl (fun c bi =>
          (block_list tl n 0).foldl (fun c bj =>
            (block_list tl k 0).foldl (fun c bp =>
              (List.range' bi.1 (bi.2 - bi.1)).foldl (fun c i =>
                (List.range' bp.1 (bp.2 - bp.1)).foldl (fun c p =>
                  (unroll4 (bj.2 - bj.1)).foldl (fun c off =>
                    c.set (i * n + (bj.1 + off))
                      (c.getD (i * n + (bj.1 + off)) 0 +
                        a.values.getD (i * k + p) 0 *
                          b.values.getD (p * n + (bj.1 + off)) 0)) c) c) c)
            c) c) out.values⟩

/-- Embeds `dense_matrix::mul_block_ipj(a, b, tile)`: same tiling with the p0 blocks
ahead of the j0 blocks. -/
def mul_block_ipj [AddCommMonoid α] [Mul α] (si : scalar_info)
    (a b : dense_matrix α) (tile : Nat) : dm_res (dense_matrix α) :=
  let m := a.row_count
  let k := a.col_count
  let n := b.col_count
  let tl := if tile = 0 then optimal_tile si n m k else tile
  (mk_default m n).map fun out =>
    if out.size = 0 then out
    else
      ⟨m, n,
        (block_list tl m 0).foldl (fun c bi =>
          (block_list tl k 0).foldl (fun c bp =>
            (block_list tl n 0).foldl (fun c bj =>
              (List.range' bi.1 (bi.2 - bi.1)).foldl (fun c i =>
                (List.range' bp.1 (bp.2 - bp.1)).foldl (fun c p =>
                  (unroll4 (bj.2 - bj.1)).foldl (fun c off =>
                    c.set (i * n + (bj.1 + off))
                      (c.getD (i * n + (bj.1 + off)) 0 +
                        a.values.getD (i * k + p) 0 *
                          b.values.getD (p * n + (bj.1 + off)) 0)) c) c) c)
            c) c) out.values⟩

/-- The four multiplication strategies of `dm::mul_algo`. -/
inductive mul_algo where
  | native | transpose | block_ijp | block_ipj
deriving DecidableEq

/-- Embeds `dense_matrix::multiply(a, b, algo, tile)`: shape validation, then
dispatch. -/
def multiply [AddCommMonoid α] [Mul α] (si : scalar_info)
    (a b : dense_matrix α) (algo : mul_algo) (tile : Nat) :
    dm_res (dense_matrix α) :=
  if a.col_count ≠ b.row_count then
    .error (.invalid_argument "dense_matrix::multiply: incompatible shapes")
  else
    match algo with
    | .native => mul_native a b
    | .transpose => mul_transpose si a b tile
    | .block_ijp => mul_block_ijp si a b tile
    | .block_ipj => mul_block_ipj si a b tile

end dense_matrix

/-! ## The plain-C ABI wrapper (`src/src/dense_matrix_api.cpp`)

`dm_double` is `dense_matrix<double>`; the element type stays a parameter
`α` and the compile-time facts of `double` are `double_info`.  Handles
(`dm_ptr`) are nullable owners: `Option (dm_storage α)`.  Raw `double*`
buffers are nullable views, as in the constructor embedding. -/

/-- Facts of `double`: `sizeof(double) = 8`, `std::is_same_v<double, double> = true`. -/
def double_info : scalar_info := ⟨8, true⟩

/-- Embeds `struct dm_storage { dm_double matrix; }`. -/
structure dm_storage (α : Type) where
  matrix : dense_matrix α
deriving DecidableEq

/-- Embeds `typedef enum { ok = 0, null, bad_size, bad_alloc, internal } dm_status`. -/
inductive dm_status where
  | ok | null | bad_size | bad_alloc | internal
deriving DecidableEq

namespace dm_api

variable {α : Type}

/-- Embeds `safe_call`: invokes a getter, normalising null receivers to zero. -/
def safe_call (getter : dense_matrix α → Nat) (obj : Option (dm_storage α)) :
    Nat :=
  match obj with
  | none => 0
  | some s => getter s.matrix

/-- Embeds `dm_new_empty()`: heap-allocates a default (0×0) matrix. -/
def dm_new_empty : Option (dm_storage α) := some ⟨⟨0, 0, []⟩⟩

/-- Embeds `dm_new(rows, cols)`: a thrown overflow (or allocation failure) is caught
and surfaces as a null handle. -/
def dm_new [AddCommMonoid α] (rows cols : Nat) : Option (dm_storage α) :=
  match dense_matrix.mk_default (α := α) rows cols with
  | .ok m => some ⟨m⟩
  | .error _ => none

/-- Embeds `dm_rows(obj)`. -/
def dm_rows (obj : Option (dm_storage α)) : Nat :=
  safe_call (·.row_count) obj

/-- Embeds `dm_cols(obj)`. -/
def dm_cols (obj : Option (dm_storage α)) : Nat :=
  safe_call (·.col_count) obj

/-- Embeds `dm_size(obj)`. -/
def dm_size (obj : Option (dm_storage α)) : Nat :=
  safe_call (·.size) obj

/-- Embeds `dm_write(obj, src, value_count)`: returns the status and the handle's
state after the call (`copy_n` overwrites the whole buffer exactly when
`value_count == matrix.size()`). -/
def dm_write (obj : Option (dm_storage α)) (src : Option (Nat → α))
    (value_count : Nat) : dm_status × Option (dm_storage α) :=
  match obj with
  | none => (.null, none)
  | some s =>
    if src.isNone ∧ value_count ≠ 0 then (.null, some s)
    else if s.matrix.size ≠ value_count then (.bad_size, some s)
    else
      match src with
      | some f =>
        (.ok, some ⟨⟨s.matrix.row_count, s.matrix.col_count,
          (List.range value_count).map f⟩⟩)
      | none => (.ok, some s)

/-- Embeds `dm_read(obj, dst, value_count)`: `dst_null` says whether the destination
pointer is null; the second component is what `copy_n` wrote into it. -/
def dm_read (obj : Option (dm_storage α)) (dst_null : Bool)
    (value_count : Nat) : dm_status × Option (List α) :=
  match obj with
  | none => (.null, none)
  | some s =>
    if dst_null ∧ value_count ≠ 0 then (.null, none)
    else if s.matrix.size ≠ value_count then (.bad_size, none)
    else (.ok, some (s.matrix.values.take value_count))

/-- The catch clauses of `dm_mul`: `std::overflow_error` and
`std::invalid_argument` become `bad_size`; any other `std::exception`
(e.g. `std::out_of_range`) becomes `internal`. -/
def status_of_error : dm_error → dm_status
  | .overflow_error _ => .bad_size
  | .invalid_argument _ => .bad_size
  | .out_of_range _ => .internal

/-- Embeds `dm_mul(lhs, rhs, out_obj)`: `out_valid` says whether `out_obj` is a
non-null out-pointer; the second component is what was stored through it
(`*out_obj` is set to `nullptr` on every failure path). -/
def dm_mul [AddCommMonoid α] [Mul α] (lhs rhs : Option (dm_storage α))
    (out_valid : Bool) : dm_status × Option (dm_storage α) :=
  if out_valid = false then (.null, none)
  else
    match lhs, rhs with
    | some l, some r =>
      if l.matrix.col_count ≠ r.matrix.row_count then (.bad_size, none)
      else
        match dense_matrix.multiply double_info l.matrix r.matrix .native 0 with
        | .ok c => (.ok, some ⟨c⟩)
        | .error e => (status_of_error e, none)
    | _, _ => (.null, none)

end dm_api

/-! ## Specification-side definitions

These follow the words of the specification, to be compared with the
source-side definitions above. -/

namespace dense_matrix

/-- Spec: the standard matrix product — shape `A.rows × B.cols`, entry
`(i, j)` equal to the sum over `p < A.cols` of `A(i,p) * B(p,j)`, stored
row-major. -/
def mat_product_spec {α : Type} [AddCommMonoid α] [Mul α]
    (a b : dense_matrix α) : dense_matrix α :=
  ⟨a.row_count, b.col_count,
    (List.range (a.row_count * b.col_count)).map fun q =>
      ∑ p ∈ Finset.range a.col_count,
        a.get (q / b.col_count) p * b.get p (q % b.col_count)⟩

/-- Spec: the transpose — shape `cols × rows`, entry `(j, i)` equal to the
source entry `(i, j)`, stored row-major. -/
def transpose_spec {α : Type} [AddCommMonoid α] (x : dense_matrix α) :
    dense_matrix α :=
  ⟨x.col_count, x.row_count,
    (List.range (x.col_count * x.row_count)).map fun q =>
      x.get (q % x.row_count) (q / x.row_count)⟩

/-- The tile-size heuristic exactly as claim C2 words it: square root,
rounded down to the nearest multiple of the vectorization width, clamped to
at most 256, clamped to the nonzero dimensions, and the width substituted at
the end whenever the computed tile would be zero. -/
def optimal_tile_claim (si : scalar_info) (m n k : Nat) : Nat :=
  let vec := if si.is_double then 8 else 16
  let t1 := (Nat.sqrt (32768 / (3 * si.bytes)) / vec) * vec
  let t2 := min t1 256
  let t3 := if m ≠ 0 then min t2 m else t2
  let t4 := if n ≠ 0 then min t3 n else t3
  let t5 := if k ≠ 0 then min t4 k else t4
  if t5 = 0 then vec else t5

/-- The amended heuristic: identical to `optimal_tile_claim` except that the
width substitution happens at the rounding step (where alone a zero can
arise), i.e. before the 256 cap and the dimension clamps. -/
def optimal_tile_amended (si : scalar_info) (m n k : Nat) : Nat :=
  let vec := if si.is_double then 8 else 16
  let t1 := (Nat.sqrt (32768 / (3 * si.bytes)) / vec) * vec
  let t1' := if t1 = 0 then vec else t1
  let t2 := min t1' 256
  let t3 := if m ≠ 0 then min t2 m else t2
  let t4 := if n ≠ 0 then min t3 n else t3
  let t5 := if k ≠ 0 then min t4 k else t4
  if t5 = 0 then vec else t5

end dense_matrix

/-! ## Update-trip lists of the accumulation kernels

Each accumulation kernel performs one `c[i*n+j] += tv i p j` update per
visited loop index; the lists below are the exact visit sequences.  The
per-cell filter lemmas show that each cell `(i₀, j₀)` receives exactly the
terms `tv i₀ p j₀` for `p = 0, …, k-1`, in ascending order, under every
traversal. -/

def trips_flat {α : Type} (m k n : Nat) (tv : Nat → Nat → Nat → α) :
    List (Nat × α) :=
  (List.range m).flatMap fun i =>
    (List.range k).flatMap fun p =>
      (List.range n).map fun j => (i * n + j, tv i p j)

def trips_ijp {α : Type} (tl m k n : Nat) (tv : Nat → Nat → Nat → α) :
    List (Nat × α) :=
  (dense_matrix.block_list tl m 0).flatMap fun bi =>
    (dense_matrix.block_list tl n 0).flatMap fun bj =>
      (dense_matrix.block_list tl k 0).flatMap fun bp =>
        (List.range' bi.1 (bi.2 - bi.1)).flatMap fun i =>
          (List.range' bp.1 (bp.2 - bp.1)).flatMap fun p =>
            (List.range' bj.1 (bj.2 - bj.1)).map fun j => (i * n + j, tv i p j)

def trips_ipj {α : Type} (tl m k n : Nat) (tv : Nat → Nat → Nat → α) :
    List (Nat × α) :=
  (dense_matrix.block_list tl m 0).flatMap fun bi =>
    (dense_matrix.block_list tl k 0).flatMap fun bp =>
      (dense_matrix.block_list tl n 0).flatMap fun bj =>
        (List.range' bi.1 (bi.2 - bi.1)).flatMap fun i =>
          (List.range' bp.1 (bp.2 - bp.1)).flatMap fun p =>
            (List.range' bj.1 (bj.2 - bj.1)).map fun j => (i * n + j, tv i p j)

/-- One `c[q] += t` update per list entry `(q, t)`, in order: the common shape
of the three accumulation kernels. -/
def run_adds {α : Type} [AddCommMonoid α] (ps : List (Nat × α))
    (c : List α) : List α :=
  ps.foldl (fun c p => c.set p.1 (c.getD p.1 0 + p.2)) c

/-- One `c[q] = v` overwrite per list entry `(q, v)`, in order: the shape of
the transpose loops and of the dot-product kernel. -/
def run_sets {α : Type} (ps : List (Nat × α)) (c : List α) : List α :=
  ps.foldl (fun c p => c.set p.1 p.2) c

/-- The dimension-clamp / zero-fallback tail shared by the heuristic and its
spec-side variants. -/
def tile_clamp (vec t3 m n k : Nat) : Nat :=
  let t4 := if m ≠ 0 then min t3 m else t3
  let t5 := if n ≠ 0 then min t4 n else t4
  let t6 := if k ≠ 0 then min t5 k else t5
  if t6 = 0 then vec else t6

/-! ## List helpers -/

theorem list_getD_set_self {α : Type} (l : List α) (q : Nat) (v d : α)
    (h : q < l.length) : (l.set q v).getD q d = v := by
  rw [List.getD_eq_getElem?_getD, List.getElem?_set_self h]
  rfl

theorem list_getD_set_ne {α : Type} (l : List α) (q r : Nat) (v d : α)
    (h : r ≠ q) : (l.set r v).getD q d = l.getD q d := by
  rw [List.getD_eq_getElem?_getD, List.getElem?_set_ne h,
    ← List.getD_eq_getElem?_getD]

theorem list_getD_map_range {α : Type} (F : Nat → α) (N q : Nat) (d : α)
    (h : q < N) : ((List.range N).map F).getD q d = F q := by
  rw [List.getD_eq_getElem ((List.range N).map F) d
    (by simpa using h)]
  simp

theorem eq_map_range_of_getD {α : Type} (L : List α) (N : Nat) (F : Nat → α)
    (d : α) (hlen : L.length = N) (h : ∀ q < N, L.getD q d = F q) :
    L = (List.range N).map F := by
  apply List.ext_getElem (by simpa using hlen) -- lengths
  intro q h1 h2
  have hq : q < N := by omega
  have := h q hq
  rw [List.getD_eq_getElem L d h1] at this
  simpa using this

theorem self_eq_map_range_getD {α : Type} (l : List α) (d : α) :
    l = (List.range l.length).map (fun q => l.getD q d) := by
  apply eq_map_range_of_getD l l.length _ d rfl
  intro q _
  rfl

theorem foldl_flatMap {σ α β : Type} (l : List α) (f : α → List β)
    (g : σ → β → σ) (s : σ) :
    (l.flatMap f).foldl g s = l.foldl (fun s x => (f x).foldl g s) s := by
  induction l generalizing s with
  | nil => rfl
  | cons x xs ih => simp [List.flatMap_cons, List.foldl_append, ih]

theorem flatMap_const_nil {α β : Type} (l : List α) :
    (l.flatMap fun _ => ([] : List β)) = [] := by
  induction l <;> simp [*]

theorem flatMap_single {α β : Type} (l : List α) (f : α → β) :
    (l.flatMap fun x => [f x]) = l.map f := by
  induction l <;> simp [*]

theorem filter_beq_of_nodup {α : Type} [DecidableEq α] {l : List α}
    (hl : l.Nodup) (x₀ : α) :
    (l.filter fun x => x == x₀) = if x₀ ∈ l then [x₀] else [] := by
  induction l with
  | nil => simp
  | cons x xs ih =>
    rcases List.nodup_cons.mp hl with ⟨hx, hxs⟩
    rw [List.filter_cons]
    by_cases hxx : x = x₀
    · subst hxx
      have hnil : (xs.filter fun y => y == x) = [] := by
        rw [List.filter_eq_nil_iff]
        intro a ha
        simp only [beq_iff_eq]
        exact fun hax => hx (hax ▸ ha)
      simp [hnil]
    · have hb : (x == x₀) = false := by simpa using hxx
      rw [hb]
      simp only [Bool.false_eq_true, if_false]
      rw [ih hxs]
      refine (if_congr ?_ rfl rfl).symm
      rw [List.mem_cons]
      constructor
      · rintro (h | h)
        · exact absurd h.symm hxx
        · exact h
      · exact Or.inr

theorem flatMap_ite_eq_of_nodup {α β : Type} [DecidableEq α] {l : List α}
    (hl : l.Nodup) (x₀ : α) (L : List β) :
    (l.flatMap fun x => if x = x₀ then L else []) =
      if x₀ ∈ l then L else [] := by
  induction l with
  | nil => simp
  | cons x xs ih =>
    rcases List.nodup_cons.mp hl with ⟨hx, hxs⟩
    rw [List.flatMap_cons, ih hxs]
    by_cases hxx : x = x₀
    · subst hxx
      have h1 : x ∈ x :: xs := List.mem_cons_self x xs
      have h2 : x ∉ xs := hx
      simp [h1, h2]
    · have hmem : (x₀ ∈ x :: xs) ↔ (x₀ ∈ xs) := by
        rw [List.mem_cons]
        constructor
        · rintro (h | h)
          · exact absurd h.symm hxx
          · exact h
        · exact Or.inr
      rw [if_neg hxx, List.nil_append]
      exact (if_congr hmem rfl rfl).symm

theorem flatMap_ite_mem_of_nodup {β γ : Type} {l : List β} {g : β → List Nat}
    (hnd : (l.flatMap g).Nodup) {x₀ : Nat} (hx : x₀ ∈ l.flatMap g)
    (L : List γ) :
    (l.flatMap fun b => if x₀ ∈ g b then L else []) = L := by
  induction l with
  | nil => simp at hx
  | cons b l ih =>
    rw [List.flatMap_cons] at hnd hx
    rcases List.nodup_append.mp hnd with ⟨_, hnd2, hdisj⟩
    rw [List.flatMap_cons]
    by_cases hb : x₀ ∈ g b
    · rw [if_pos hb]
      have hrest : (l.flatMap fun b' => if x₀ ∈ g b' then L else []) = [] := by
        have : ∀ b' ∈ l, (if x₀ ∈ g b' then L else []) = [] := by
          intro b' hb'
          rw [if_neg]
          intro hmem
          exact hdisj hb (List.mem_flatMap.mpr ⟨b', hb', hmem⟩)
        calc (l.flatMap fun b' => if x₀ ∈ g b' then L else [])
            = l.flatMap fun _ => ([] : List γ) := List.flatMap_congr this
          _ = [] := flatMap_const_nil l
      rw [hrest, List.append_nil]
    · rw [if_neg hb]
      have hx' : x₀ ∈ l.flatMap g := by
        rcases List.mem_append.mp hx with h | h
        · exact absurd h hb
        · exact h
      rw [List.nil_append]
      exact ih hnd2 hx'

/-- Embeds `range' s a ++ range' (s+a) b = range' s (a+b)` (step 1). -/
theorem range'_append_one (s a b : Nat) :
    List.range' s a ++ List.range' (s + a) b = List.range' s (a + b) := by
  have := List.range'_append s a b 1
  simpa [Nat.add_comm] using this

/-! ## Accumulating and overwriting loop characterisations -/

theorem run_adds_length {α : Type} [AddCommMonoid α] (ps : List (Nat × α))
    (c : List α) : (run_adds ps c).length = c.length := by
  induction ps generalizing c with
  | nil => rfl
  | cons p ps ih => rw [run_adds, List.foldl_cons, ← run_adds, ih]; simp

theorem run_adds_getD {α : Type} [AddCommMonoid α] (ps : List (Nat × α))
    (c : List α) (q : Nat) (h : q < c.length) :
    (run_adds ps c).getD q 0 =
      c.getD q 0 + ((ps.filter fun p => p.1 == q).map Prod.snd).sum := by
  induction ps generalizing c with
  | nil => simp [run_adds]
  | cons p ps ih =>
    rw [run_adds, List.foldl_cons, ← run_adds]
    rw [ih _ (by simpa using h)]
    by_cases hpq : p.1 = q
    · subst hpq
      rw [list_getD_set_self _ _ _ _ h, List.filter_cons]
      simp [add_assoc]
    · rw [list_getD_set_ne _ _ _ _ _ hpq, List.filter_cons]
      have : (p.1 == q) = false := by simpa using hpq
      simp [this]

theorem run_sets_length {α : Type} (ps : List (Nat × α)) (c : List α) :
    (run_sets ps c).length = c.length := by
  induction ps generalizing c with
  | nil => rfl
  | cons p ps ih => rw [run_sets, List.foldl_cons, ← run_sets, ih]; simp

theorem run_sets_getD_not_mem {α : Type} (ps : List (Nat × α)) (c : List α)
    (q : Nat) (d : α) (h : q ∉ ps.map Prod.fst) :
    (run_sets ps c).getD q d = c.getD q d := by
  induction ps generalizing c with
  | nil => rfl
  | cons p ps ih =>
    rw [run_sets, List.foldl_cons, ← run_sets]
    have h1 : p.1 ≠ q := fun hc => h (by simp [hc])
    rw [ih _ (fun hc => h (by simp [hc]))]
    exact list_getD_set_ne _ _ _ _ _ h1

/-- When every written value is determined by the written index, the final
cell contents do not depend on the write order or multiplicity. -/
theorem run_sets_getD_fun {α : Type} (ps : List (Nat × α)) (c : List α)
    (F : Nat → α) (hF : ∀ p ∈ ps, p.2 = F p.1) (q : Nat) (d : α)
    (h : q < c.length) :
    (run_sets ps c).getD q d =
      if q ∈ ps.map Prod.fst then F q else c.getD q d := by
  induction ps generalizing c with
  | nil => simp [run_sets]
  | cons p ps ih =>
    rw [run_sets, List.foldl_cons, ← run_sets]
    rw [ih _ (fun x hx => hF x (List.mem_cons_of_mem _ hx))
      (by simpa using h)]
    by_cases hq : q ∈ ps.map Prod.fst
    · simp [hq]
    · rw [if_neg hq]
      by_cases hpq : p.1 = q
      · rw [hpq, list_getD_set_self _ _ _ _ h]
        have hqm : q ∈ (p :: ps).map Prod.fst := by simp [← hpq]
        rw [if_pos hqm, hF p (List.mem_cons_self p ps), hpq]
      · rw [list_getD_set_ne _ _ _ _ _ hpq]
        have : q ∉ (p :: ps).map Prod.fst := by
          simp only [List.map_cons, List.mem_cons]
          rintro (h | h)
          · exact hpq h.symm
          · exact hq h
        rw [if_neg this]

/-! ## Facts about the loop index sequences -/

theorem block_list_mem (step hi i0 : Nat) (b : Nat × Nat)
    (hb : b ∈ dense_matrix.block_list step hi i0) : b.1 < b.2 ∧ b.2 ≤ hi := by
  rw [dense_matrix.block_list] at hb
  split at hb
  · rcases List.mem_cons.mp hb with h | h
    · subst h
      constructor <;> simp <;> omega
    · exact block_list_mem step hi (i0 + step) b h
  · simp at hb
termination_by hi - i0
decreasing_by omega

theorem block_list_cover (step hi i0 : Nat) (hstep : 0 < step) :
    (dense_matrix.block_list step hi i0).flatMap
      (fun b => List.range' b.1 (b.2 - b.1)) = List.range' i0 (hi - i0) := by
  rw [dense_matrix.block_list]
  split
  · rename_i h
    rw [List.flatMap_cons, block_list_cover step hi (i0 + step) hstep]
    by_cases hle : i0 + step ≤ hi
    · have h1 : min (i0 + step) hi = i0 + step := by omega
      have h2 : (i0, min (i0 + step) hi).2 - (i0, min (i0 + step) hi).1
          = step := by simp [h1]
      rw [h2]
      have := range'_append_one i0 step (hi - (i0 + step))
      rw [show i0 + step = i0 + step from rfl] at this
      rw [this, show step + (hi - (i0 + step)) = hi - i0 by omega]
    · have h1 : min (i0 + step) hi = hi := by omega
      have h2 : hi - (i0 + step) = 0 := by omega
      rw [h2]
      simp [h1]
  · rename_i h
    have : hi - i0 = 0 := by omega
    simp [this]
termination_by hi - i0
decreasing_by omega

theorem block_list_cover_range (step hi : Nat) (hstep : 0 < step) :
    (dense_matrix.block_list step hi 0).flatMap
      (fun b => List.range' b.1 (b.2 - b.1)) = List.range hi := by
  rw [block_list_cover step hi 0 hstep, Nat.sub_zero, ← List.range_eq_range']

theorem flatMap_range4 (q : Nat) :
    ((List.range q).flatMap fun g => [4 * g, 4 * g + 1, 4 * g + 2, 4 * g + 3])
      = List.range (4 * q) := by
  induction q with
  | zero => simp
  | succ q ih =>
    rw [List.range_succ, List.flatMap_append, ih, List.flatMap_singleton]
    rw [show 4 * (q + 1) = 4 * q + 1 + 1 + 1 + 1 by omega]
    simp [List.range_succ, List.append_assoc]

theorem range_append_range' (a b : Nat) :
    List.range a ++ List.range' a b = List.range (a + b) := by
  rw [List.range_eq_range', List.range_eq_range' (a + b)]
  have := range'_append_one 0 a b
  simpa using this

theorem unroll4_eq_range (w : Nat) : dense_matrix.unroll4 w = List.range w := by
  rw [dense_matrix.unroll4]
  have h1 : w - w % 4 = 4 * (w / 4) := by
    have := Nat.div_add_mod w 4
    omega
  have h2 : 4 * (w / 4) / 4 = w / 4 := by
    omega
  rw [h1, h2, flatMap_range4, range_append_range']
  congr 1
  have := Nat.div_add_mod w 4
  omega

theorem chunk_range (n m : Nat) :
    ((List.range n).flatMap fun j => List.range' (j * m) m)
      = List.range (n * m) := by
  induction n with
  | zero => simp
  | succ n ih =>
    rw [List.range_succ, List.flatMap_append, ih, List.flatMap_singleton]
    rw [range_append_range']
    congr 1
    ring

/-- Row-major index injectivity: `(i, j) ↦ i*n + j` for `j < n`. -/
theorem enc_inj {n i j i' j' : Nat} (hj : j < n) (hj' : j' < n)
    (h : i * n + j = i' * n + j') : i = i' ∧ j = j' := by
  have hn : 0 < n := Nat.pos_of_ne_zero (by omega)
  have h1 : (n * i + j) / n = i := by
    rw [Nat.mul_add_div hn, Nat.div_eq_of_lt hj, Nat.add_zero]
  have h2 : (n * i' + j') / n = i' := by
    rw [Nat.mul_add_div hn, Nat.div_eq_of_lt hj', Nat.add_zero]
  rw [Nat.mul_comm n i] at h1
  rw [Nat.mul_comm n i'] at h2
  have hii : i = i' := by rw [← h1, ← h2, h]
  subst hii
  exact ⟨rfl, by omega⟩

theorem enc_div {n i j : Nat} (hj : j < n) : (i * n + j) / n = i := by
  have hn : 0 < n := Nat.pos_of_ne_zero (by omega)
  rw [Nat.mul_comm i n, Nat.mul_add_div hn, Nat.div_eq_of_lt hj, Nat.add_zero]

theorem enc_mod {n i j : Nat} (hj : j < n) : (i * n + j) % n = j := by
  rw [Nat.mul_comm i n, Nat.mul_add_mod, Nat.mod_eq_of_lt hj]

/-! ## Sum lemmas -/

theorem list_sum_range {α : Type} [AddCommMonoid α] (f : Nat → α) (k : Nat) :
    ((List.range k).map f).sum = ∑ p ∈ Finset.range k, f p := by
  induction k with
  | zero => simp
  | succ k ih =>
    rw [List.range_succ, List.map_append, List.sum_append,
      Finset.sum_range_succ, ih]
    simp

theorem foldl_add_sum {α : Type} [AddCommMonoid α] (f : Nat → α) (k : Nat)
    (s : α) :
    (List.range k).foldl (fun s p => s + f p) s
      = s + ((List.range k).map f).sum := by
  induction k generalizing s with
  | zero => simp
  | succ k ih =>
    rw [List.range_succ, List.foldl_append, ih, List.map_append,
      List.sum_append]
    simp [add_assoc]

/-! ## Closed forms for construction -/

theorem safe_count_eq (r c : Nat) :
    safe_count r c =
      if r * c ≤ USIZE_MAX then .ok (r * c)
      else .error (.overflow_error "rows*cols overflows size_t") := by
  unfold safe_count
  rcases Nat.eq_zero_or_pos r with h0 | hp
  · subst h0
    simp
  · have hiff : (USIZE_MAX / r < c) ↔ ¬ (r * c ≤ USIZE_MAX) := by
      rw [Nat.not_le, Nat.div_lt_iff_lt_mul hp]
      constructor
      · intro h
        calc USIZE_MAX < c * r := h
          _ = r * c := Nat.mul_comm c r
      · intro h
        calc USIZE_MAX < r * c := h
          _ = c * r := Nat.mul_comm r c
    by_cases hc : r * c ≤ USIZE_MAX
    · rw [if_pos hc, if_neg]
      rintro ⟨-, hgt⟩
      exact (hiff.mp hgt) hc
    · rw [if_neg hc, if_pos]
      exact ⟨by omega, hiff.mpr hc⟩

theorem mk_default_eq {α : Type} [Zero α] (r c : Nat) :
    dense_matrix.mk_default (α := α) r c =
      if r * c ≤ USIZE_MAX then .ok ⟨r, c, List.replicate (r * c) 0⟩
      else .error (.overflow_error "rows*cols overflows size_t") := by
  rw [dense_matrix.mk_default, safe_count_eq]
  split <;> rfl

theorem tile_chain_pos (vec t3 m n k : Nat) (hvec : 0 < vec) :
    0 < (let t4 := if m ≠ 0 then min t3 m else t3
         let t5 := if n ≠ 0 then min t4 n else t4
         let t6 := if k ≠ 0 then min t5 k else t5
         if t6 = 0 then vec else t6) := by
  simp only []
  split_ifs <;> omega

theorem optimal_tile_pos (si : scalar_info) (m n k : Nat) :
    0 < dense_matrix.optimal_tile si m n k := by
  have hvec : 0 < (if si.is_double then (8 : Nat) else 16) := by
    cases si.is_double <;> norm_num
  exact tile_chain_pos _ _ m n k hvec

theorem flatMap_ite_push {β γ : Type} (l : List β) (c : Prop) [Decidable c]
    (f : β → List γ) :
    (l.flatMap fun x => if c then f x else []) =
      if c then l.flatMap f else [] := by
  by_cases hc : c <;> simp [hc, flatMap_const_nil]

/-- The innermost `j`-walk of every accumulation kernel, filtered at the
cell `(i₀, j₀)`: it contributes one term when `i = i₀` and the walk covers
`j₀`, nothing otherwise. -/
theorem filter_jwalk {α : Type} (n i₀ j₀ : Nat) (hj : j₀ < n)
    (tv : Nat → Nat → Nat → α) (i p s len : Nat) (hrng : s + len ≤ n) :
    ((List.range' s len).map fun j => (i * n + j, tv i p j)).filter
        (fun t => t.1 == i₀ * n + j₀)
      = if i = i₀ then
          (if j₀ ∈ List.range' s len then [(i₀ * n + j₀, tv i₀ p j₀)] else [])
        else [] := by
  rw [List.filter_map]
  have hlt : ∀ j ∈ List.range' s len, j < n := by
    intro j hjm
    rcases List.mem_range'.mp hjm with ⟨idx, hidx, rfl⟩
    omega
  by_cases hii : i = i₀
  · subst hii
    rw [if_pos rfl]
    have hcongr : ∀ j ∈ List.range' s len,
        ((fun t : Nat × α => t.1 == i * n + j₀) ∘
          (fun j => (i * n + j, tv i p j))) j = (j == j₀) := by
      intro j hjm
      simp only [Function.comp_apply]
      rw [Bool.eq_iff_iff]
      simp only [beq_iff_eq]
      omega
    rw [List.filter_congr hcongr,
      filter_beq_of_nodup (List.nodup_range' s len) j₀]
    split
    · rfl
    · rfl
  · rw [if_neg hii]
    have hnil : List.filter ((fun t : Nat × α => t.1 == i₀ * n + j₀) ∘
        (fun j => (i * n + j, tv i p j))) (List.range' s len) = [] := by
      rw [List.filter_eq_nil_iff]
      intro j hjm
      simp only [Function.comp_apply, beq_iff_eq]
      intro heq
      exact hii (enc_inj (hlt j hjm) hj heq).1
    rw [hnil]
    rfl

/-- The `i`-`p`-`j` body common to both blocked kernels, filtered at
`(i₀, j₀)`. -/
theorem filter_body {α : Type} (n i₀ j₀ : Nat) (hj : j₀ < n)
    (tv : Nat → Nat → Nat → α) (si li sp lp sj lj : Nat) (hrng : sj + lj ≤ n) :
    (((List.range' si li).flatMap fun i =>
        (List.range' sp lp).flatMap fun p =>
          (List.range' sj lj).map fun j => (i * n + j, tv i p j)).filter
      (fun t => t.1 == i₀ * n + j₀))
      = if i₀ ∈ List.range' si li then
          (if j₀ ∈ List.range' sj lj then
            (List.range' sp lp).map fun p => (i₀ * n + j₀, tv i₀ p j₀)
          else [])
        else [] := by
  rw [List.filter_flatMap]
  have hstep1 : ∀ i ∈ List.range' si li,
      (((List.range' sp lp).flatMap fun p =>
          (List.range' sj lj).map fun j => (i * n + j, tv i p j)).filter
        (fun t => t.1 == i₀ * n + j₀))
        = if i = i₀ then
            (if j₀ ∈ List.range' sj lj then
              (List.range' sp lp).map fun p => (i₀ * n + j₀, tv i₀ p j₀)
            else [])
          else [] := by
    intro i _
    rw [List.filter_flatMap]
    have hstep2 : ∀ p ∈ List.range' sp lp,
        (((List.range' sj lj).map fun j => (i * n + j, tv i p j)).filter
          (fun t => t.1 == i₀ * n + j₀))
          = if i = i₀ then
              (if j₀ ∈ List.range' sj lj then [(i₀ * n + j₀, tv i₀ p j₀)]
               else [])
            else [] := by
      intro p _
      exact filter_jwalk n i₀ j₀ hj tv i p sj lj hrng
    rw [List.flatMap_congr hstep2, flatMap_ite_push, flatMap_ite_push,
      flatMap_single]
  rw [List.flatMap_congr hstep1,
    flatMap_ite_eq_of_nodup (List.nodup_range' si li) i₀]

/-- Per-cell contribution of the plain i-p-j traversal. -/
theorem trips_flat_filter {α : Type} (m k n i₀ j₀ : Nat)
    (tv : Nat → Nat → Nat → α) (hi : i₀ < m) (hj : j₀ < n) :
    ((trips_flat m k n tv).filter fun t => t.1 == i₀ * n + j₀)
      = (List.range k).map fun p => (i₀ * n + j₀, tv i₀ p j₀) := by
  have h := filter_body n i₀ j₀ hj tv 0 m 0 k 0 n (by omega)
  rw [trips_flat]
  have hconv :
      ((List.range m).flatMap fun i =>
        (List.range k).flatMap fun p =>
          (List.range n).map fun j => (i * n + j, tv i p j))
      = ((List.range' 0 m).flatMap fun i =>
          (List.range' 0 k).flatMap fun p =>
            (List.range' 0 n).map fun j => (i * n + j, tv i p j)) := by
    rw [← List.range_eq_range', ← List.range_eq_range', ← List.range_eq_range']
  have hmem_i : i₀ ∈ List.range' 0 m := by
    rw [← List.range_eq_range']
    exact List.mem_range.mpr hi
  have hmem_j : j₀ ∈ List.range' 0 n := by
    rw [← List.range_eq_range']
    exact List.mem_range.mpr hj
  rw [hconv, h, if_pos hmem_i, if_pos hmem_j, ← List.range_eq_range']

/-- Per-cell contribution of the blocked i0-j0-p0 traversal. -/
theorem trips_ijp_filter {α : Type} (tl m k n i₀ j₀ : Nat)
    (tv : Nat → Nat → Nat → α) (htl : 0 < tl) (hi : i₀ < m) (hj : j₀ < n) :
    ((trips_ijp tl m k n tv).filter fun t => t.1 == i₀ * n + j₀)
      = (List.range k).map fun p => (i₀ * n + j₀, tv i₀ p j₀) := by
  rw [trips_ijp, List.filter_flatMap]
  have hbi : ∀ bi ∈ dense_matrix.block_list tl m 0,
      (((dense_matrix.block_list tl n 0).flatMap fun bj =>
        (dense_matrix.block_list tl k 0).flatMap fun bp =>
          (List.range' bi.1 (bi.2 - bi.1)).flatMap fun i =>
            (List.range' bp.1 (bp.2 - bp.1)).flatMap fun p =>
              (List.range' bj.1 (bj.2 - bj.1)).map fun j =>
                (i * n + j, tv i p j)).filter
        (fun t => t.1 == i₀ * n + j₀))
        = if i₀ ∈ List.range' bi.1 (bi.2 - bi.1) then
            (List.range k).map fun p => (i₀ * n + j₀, tv i₀ p j₀)
          else [] := by
    intro bi _
    rw [List.filter_flatMap]
    have hbj : ∀ bj ∈ dense_matrix.block_list tl n 0,
        (((dense_matrix.block_list tl k 0).flatMap fun bp =>
          (List.range' bi.1 (bi.2 - bi.1)).flatMap fun i =>
            (List.range' bp.1 (bp.2 - bp.1)).flatMap fun p =>
              (List.range' bj.1 (bj.2 - bj.1)).map fun j =>
                (i * n + j, tv i p j)).filter
          (fun t => t.1 == i₀ * n + j₀))
          = if i₀ ∈ List.range' bi.1 (bi.2 - bi.1) then
              (if j₀ ∈ List.range' bj.1 (bj.2 - bj.1) then
                (List.range k).map fun p => (i₀ * n + j₀, tv i₀ p j₀)
              else [])
            else [] := by
      intro bj hbjm
      rw [List.filter_flatMap]
      have hbp : ∀ bp ∈ dense_matrix.block_list tl k 0,
          (((List.range' bi.1 (bi.2 - bi.1)).flatMap fun i =>
            (List.range' bp.1 (bp.2 - bp.1)).flatMap fun p =>
              (List.range' bj.1 (bj.2 - bj.1)).map fun j =>
                (i * n + j, tv i p j)).filter
            (fun t => t.1 == i₀ * n + j₀))
            = if i₀ ∈ List.range' bi.1 (bi.2 - bi.1) then
                (if j₀ ∈ List.range' bj.1 (bj.2 - bj.1) then
                  (List.range' bp.1 (bp.2 - bp.1)).map fun p =>
                    (i₀ * n + j₀, tv i₀ p j₀)
                else [])
              else [] := by
        intro bp _
        have hbnd := block_list_mem tl n 0 bj hbjm
        exact filter_body n i₀ j₀ hj tv bi.1 (bi.2 - bi.1) bp.1 (bp.2 - bp.1)
          bj.1 (bj.2 - bj.1) (by omega)
      rw [List.flatMap_congr hbp, flatMap_ite_push, flatMap_ite_push]
      congr 1
      congr 1
      rw [← List.map_flatMap, block_list_cover_range tl k htl]
    have hnodn : ((dense_matrix.block_list tl n 0).flatMap
        fun b => List.range' b.1 (b.2 - b.1)).Nodup := by
      rw [block_list_cover_range tl n htl]
      exact List.nodup_range n
    have hmemn : j₀ ∈ (dense_matrix.block_list tl n 0).flatMap
        fun b => List.range' b.1 (b.2 - b.1) := by
      rw [block_list_cover_range tl n htl]
      exact List.mem_range.mpr hj
    rw [List.flatMap_congr hbj, flatMap_ite_push,
      flatMap_ite_mem_of_nodup hnodn hmemn]
  have hnodm : ((dense_matrix.block_list tl m 0).flatMap
      fun b => List.range' b.1 (b.2 - b.1)).Nodup := by
    rw [block_list_cover_range tl m htl]
    exact List.nodup_range m
  have hmemm : i₀ ∈ (dense_matrix.block_list tl m 0).flatMap
      fun b => List.range' b.1 (b.2 - b.1) := by
    rw [block_list_cover_range tl m htl]
    exact List.mem_range.mpr hi
  rw [List.flatMap_congr hbi, flatMap_ite_mem_of_nodup hnodm hmemm]

/-- Per-cell contribution of the blocked i0-p0-j0 traversal. -/
theorem trips_ipj_filter {α : Type} (tl m k n i₀ j₀ : Nat)
    (tv : Nat → Nat → Nat → α) (htl : 0 < tl) (hi : i₀ < m) (hj : j₀ < n) :
    ((trips_ipj tl m k n tv).filter fun t => t.1 == i₀ * n + j₀)
      = (List.range k).map fun p => (i₀ * n + j₀, tv i₀ p j₀) := by
  rw [trips_ipj, List.filter_flatMap]
  have hbi : ∀ bi ∈ dense_matrix.block_list tl m 0,
      (((dense_matrix.block_list tl k 0).flatMap fun bp =>
        (dense_matrix.block_list tl n 0).flatMap fun bj =>
          (List.range' bi.1 (bi.2 - bi.1)).flatMap fun i =>
            (List.range' bp.1 (bp.2 - bp.1)).flatMap fun p =>
              (List.range' bj.1 (bj.2 - bj.1)).map fun j =>
                (i * n + j, tv i p j)).filter
        (fun t => t.1 == i₀ * n + j₀))
        = if i₀ ∈ List.range' bi.1 (bi.2 - bi.1) then
            (List.range k).map fun p => (i₀ * n + j₀, tv i₀ p j₀)
          else [] := by
    intro bi _
    rw [List.filter_flatMap]
    have hbp : ∀ bp ∈ dense_matrix.block_list tl k 0,
        (((dense_matrix.block_list tl n 0).flatMap fun bj =>
          (List.range' bi.1 (bi.2 - bi.1)).flatMap fun i =>
            (List.range' bp.1 (bp.2 - bp.1)).flatMap fun p =>
              (List.range' bj.1 (bj.2 - bj.1)).map fun j =>
                (i * n + j, tv i p j)).filter
          (fun t => t.1 == i₀ * n + j₀))
          = if i₀ ∈ List.range' bi.1 (bi.2 - bi.1) then
              (List.range' bp.1 (bp.2 - bp.1)).map fun p =>
                (i₀ * n + j₀, tv i₀ p j₀)
            else [] := by
      intro bp _
      rw [List.filter_flatMap]
      have hbj : ∀ bj ∈ dense_matrix.block_list tl n 0,
          (((List.range' bi.1 (bi.2 - bi.1)).flatMap fun i =>
            (List.range' bp.1 (bp.2 - bp.1)).flatMap fun p =>
              (List.range' bj.1 (bj.2 - bj.1)).map fun j =>
                (i * n + j, tv i p j)).filter
            (fun t => t.1 == i₀ * n + j₀))
            = if i₀ ∈ List.range' bi.1 (bi.2 - bi.1) then
                (if j₀ ∈ List.range' bj.1 (bj.2 - bj.1) then
                  (List.range' bp.1 (bp.2 - bp.1)).map fun p =>
                    (i₀ * n + j₀, tv i₀ p j₀)
                else [])
              else [] := by
        intro bj hbjm
        have hbnd := block_list_mem tl n 0 bj hbjm
        exact filter_body n i₀ j₀ hj tv bi.1 (bi.2 - bi.1) bp.1 (bp.2 - bp.1)
          bj.1 (bj.2 - bj.1) (by omega)
      have hnodn : ((dense_matrix.block_list tl n 0).flatMap
          fun b => List.range' b.1 (b.2 - b.1)).Nodup := by
        rw [block_list_cover_range tl n htl]
        exact List.nodup_range n
      have hmemn : j₀ ∈ (dense_matrix.block_list tl n 0).flatMap
          fun b => List.range' b.1 (b.2 - b.1) := by
        rw [block_list_cover_range tl n htl]
        exact List.mem_range.mpr hj
      rw [List.flatMap_congr hbj, flatMap_ite_push,
        flatMap_ite_mem_of_nodup hnodn hmemn]
    rw [List.flatMap_congr hbp, flatMap_ite_push]
    congr 1
    rw [← List.map_flatMap, block_list_cover_range tl k htl]
  have hnodm : ((dense_matrix.block_list tl m 0).flatMap
      fun b => List.range' b.1 (b.2 - b.1)).Nodup := by
    rw [block_list_cover_range tl m htl]
    exact List.nodup_range m
  have hmemm : i₀ ∈ (dense_matrix.block_list tl m 0).flatMap
      fun b => List.range' b.1 (b.2 - b.1) := by
    rw [block_list_cover_range tl m htl]
    exact List.mem_range.mpr hi
  rw [List.flatMap_congr hbi, flatMap_ite_mem_of_nodup hnodm hmemm]


/-! ## Kernel correctness -/

theorem list_getD_replicate {α : Type} (N q : Nat) (x d : α) (h : q < N) :
    (List.replicate N x).getD q d = x := by
  rw [List.getD_eq_getElem _ d (by simpa using h)]
  exact List.getElem_replicate x _

/-- The native triple loop is `run_adds` over `trips_flat`. -/
theorem native_loops {α : Type} [AddCommMonoid α] [Mul α]
    (av bv c : List α) (m k n : Nat) :
    ((List.range m).foldl (fun c i =>
      (List.range k).foldl (fun c p =>
        (List.range n).foldl (fun c j =>
          c.set (i * n + j)
            (c.getD (i * n + j) 0 +
              av.getD (i * k + p) 0 * bv.getD (p * n + j) 0)) c) c) c)
      = run_adds
          (trips_flat m k n
            (fun i p j => av.getD (i * k + p) 0 * bv.getD (p * n + j) 0)) c := by
  rw [run_adds, trips_flat]
  simp only [foldl_flatMap, List.foldl_map]

/-- Shared final step: a `run_adds` over a trip list whose per-cell filter is
the ascending `p`-walk equals the specified product entries. -/
theorem run_adds_product {α : Type} [AddCommMonoid α] [Mul α]
    (a b : dense_matrix α) (ps : List (Nat × α))
    (hfilter : ∀ i₀ j₀, i₀ < a.row_count → j₀ < b.col_count →
      (ps.filter fun t => t.1 == i₀ * b.col_count + j₀)
        = (List.range a.col_count).map fun p =>
            (i₀ * b.col_count + j₀,
              a.values.getD (i₀ * a.col_count + p) 0 *
                b.values.getD (p * b.col_count + j₀) 0)) :
    run_adds ps (List.replicate (a.row_count * b.col_count) 0)
      = (List.range (a.row_count * b.col_count)).map fun q =>
          ∑ p ∈ Finset.range a.col_count,
            a.get (q / b.col_count) p * b.get p (q % b.col_count) := by
  apply eq_map_range_of_getD _ _ _ 0
  · rw [run_adds_length, List.length_replicate]
  · intro q hq
    have hn : 0 < b.col_count := by
      rcases Nat.eq_zero_or_pos b.col_count with h0 | h
      · rw [h0, Nat.mul_zero] at hq
        omega
      · exact h
    have hi : q / b.col_count < a.row_count := by
      exact Nat.div_lt_of_lt_mul (by rwa [Nat.mul_comm] at hq)
    have hj : q % b.col_count < b.col_count := Nat.mod_lt q hn
    have hdec : q = (q / b.col_count) * b.col_count + q % b.col_count := by
      rw [Nat.mul_comm]
      exact (Nat.div_add_mod q b.col_count).symm
    rw [run_adds_getD _ _ _ (by rw [List.length_replicate]; exact hq)]
    rw [list_getD_replicate _ _ _ _ hq, zero_add]
    conv_lhs => rw [hdec]
    rw [hfilter _ _ hi hj]
    rw [List.map_map]
    have hsnd : (Prod.snd ∘ fun p =>
        ((q / b.col_count) * b.col_count + q % b.col_count,
          a.values.getD ((q / b.col_count) * a.col_count + p) 0 *
            b.values.getD (p * b.col_count + q % b.col_count) 0))
        = fun p => a.values.getD ((q / b.col_count) * a.col_count + p) 0 *
            b.values.getD (p * b.col_count + q % b.col_count) 0 := rfl
    rw [hsnd, list_sum_range]
    rfl

theorem mul_native_ok {α : Type} [AddCommMonoid α] [Mul α]
    (a b : dense_matrix α)
    (hmn : a.row_count * b.col_count ≤ USIZE_MAX) :
    dense_matrix.mul_native a b = .ok (dense_matrix.mat_product_spec a b) := by
  rw [dense_matrix.mul_native, mk_default_eq, if_pos hmn, dm_res.map]
  rw [dense_matrix.mat_product_spec]
  simp only [dense_matrix.size, List.length_replicate]
  by_cases hz : a.row_count * b.col_count = 0
  · rw [if_pos hz, hz]
    rfl
  · rw [if_neg hz, native_loops,
      run_adds_product a b _
        (fun i₀ j₀ hi hj => trips_flat_filter _ _ _ i₀ j₀ _ hi hj)]

/-- The blocked i0-j0-p0 loop nest is `run_adds` over `trips_ijp`. -/
theorem block_loops_ijp {α : Type} [AddCommMonoid α] [Mul α]
    (av bv c : List α) (tl m k n : Nat) :
    ((dense_matrix.block_list tl m 0).foldl (fun c bi =>
      (dense_matrix.block_list tl n 0).foldl (fun c bj =>
        (dense_matrix.block_list tl k 0).foldl (fun c bp =>
          (List.range' bi.1 (bi.2 - bi.1)).foldl (fun c i =>
            (List.range' bp.1 (bp.2 - bp.1)).foldl (fun c p =>
              (dense_matrix.unroll4 (bj.2 - bj.1)).foldl (fun c off =>
                c.set (i * n + (bj.1 + off))
                  (c.getD (i * n + (bj.1 + off)) 0 +
                    av.getD (i * k + p) 0 *
                      bv.getD (p * n + (bj.1 + off)) 0)) c) c) c) c) c) c)
      = run_adds
          (trips_ijp tl m k n
            (fun i p j => av.getD (i * k + p) 0 * bv.getD (p * n + j) 0)) c := by
  rw [run_adds, trips_ijp]
  simp only [foldl_flatMap, List.foldl_map, unroll4_eq_range,
    List.range'_eq_map_range]

/-- The blocked i0-p0-j0 loop nest is `run_adds` over `trips_ipj`. -/
theorem block_loops_ipj {α : Type} [AddCommMonoid α] [Mul α]
    (av bv c : List α) (tl m k n : Nat) :
    ((dense_matrix.block_list tl m 0).foldl (fun c bi =>
      (dense_matrix.block_list tl k 0).foldl (fun c bp =>
        (dense_matrix.block_list tl n 0).foldl (fun c bj =>
          (List.range' bi.1 (bi.2 - bi.1)).foldl (fun c i =>
            (List.range' bp.1 (bp.2 - bp.1)).foldl (fun c p =>
              (dense_matrix.unroll4 (bj.2 - bj.1)).foldl (fun c off =>
                c.set (i * n + (bj.1 + off))
                  (c.getD (i * n + (bj.1 + off)) 0 +
                    av.getD (i * k + p) 0 *
                      bv.getD (p * n + (bj.1 + off)) 0)) c) c) c) c) c) c)
      = run_adds
          (trips_ipj tl m k n
            (fun i p j => av.getD (i * k + p) 0 * bv.getD (p * n + j) 0)) c := by
  rw [run_adds, trips_ipj]
  simp only [foldl_flatMap, List.foldl_map, unroll4_eq_range,
    List.range'_eq_map_range]

theorem mul_block_ijp_ok {α : Type} [AddCommMonoid α] [Mul α]
    (si : scalar_info) (a b : dense_matrix α) (tile : Nat)
    (hmn : a.row_count * b.col_count ≤ USIZE_MAX) :
    dense_matrix.mul_block_ijp si a b tile
      = .ok (dense_matrix.mat_product_spec a b) := by
  have htl : 0 < (if tile = 0 then
      dense_matrix.optimal_tile si b.col_count a.row_count a.col_count
    else tile) := by
    split
    · exact optimal_tile_pos si _ _ _
    · omega
  rw [dense_matrix.mul_block_ijp, mk_default_eq, if_pos hmn, dm_res.map,
    dense_matrix.mat_product_spec]
  simp only [dense_matrix.size, List.length_replicate]
  by_cases hz : a.row_count * b.col_count = 0
  · rw [if_pos hz, hz]
    rfl
  · rw [if_neg hz, block_loops_ijp,
      run_adds_product a b _
        (fun i₀ j₀ hi hj => trips_ijp_filter _ _ _ _ i₀ j₀ _ htl hi hj)]

theorem mul_block_ipj_ok {α : Type} [AddCommMonoid α] [Mul α]
    (si : scalar_info) (a b : dense_matrix α) (tile : Nat)
    (hmn : a.row_count * b.col_count ≤ USIZE_MAX) :
    dense_matrix.mul_block_ipj si a b tile
      = .ok (dense_matrix.mat_product_spec a b) := by
  have htl : 0 < (if tile = 0 then
      dense_matrix.optimal_tile si b.col_count a.row_count a.col_count
    else tile) := by
    split
    · exact optimal_tile_pos si _ _ _
    · omega
  rw [dense_matrix.mul_block_ipj, mk_default_eq, if_pos hmn, dm_res.map,
    dense_matrix.mat_product_spec]
  simp only [dense_matrix.size, List.length_replicate]
  by_cases hz : a.row_count * b.col_count = 0
  · rw [if_pos hz, hz]
    rfl
  · rw [if_neg hz, block_loops_ipj,
      run_adds_product a b _
        (fun i₀ j₀ hi hj => trips_ipj_filter _ _ _ _ i₀ j₀ _ htl hi hj)]

/-! ## Transpose correctness -/

/-- The plain transpose loops are `run_sets` over their write list. -/
theorem transpose_loops {α : Type} [Zero α] (xv c : List α) (m n : Nat) :
    ((List.range n).foldl (fun b j =>
      (List.range m).foldl (fun b i =>
        b.set (j * m + i) (xv.getD (i * n + j) 0)) b) c)
      = run_sets
          ((List.range n).flatMap fun j =>
            (List.range m).map fun i => (j * m + i, xv.getD (i * n + j) 0))
          c := by
  rw [run_sets]
  simp only [foldl_flatMap, List.foldl_map]

/-- The tiled transpose loops are `run_sets` over their write list. -/
theorem transpose_tile_loops {α : Type} [Zero α] (xv c : List α) (tl m n : Nat) :
    ((dense_matrix.block_list tl n 0).foldl (fun b bj =>
      (dense_matrix.block_list tl m 0).foldl (fun b bi =>
        (List.range' bj.1 (bj.2 - bj.1)).foldl (fun b j =>
          (List.range' bi.1 (bi.2 - bi.1)).foldl (fun b i =>
            b.set (j * m + i) (xv.getD (i * n + j) 0)) b) b) b) c)
      = run_sets
          ((dense_matrix.block_list tl n 0).flatMap fun bj =>
            (dense_matrix.block_list tl m 0).flatMap fun bi =>
              (List.range' bj.1 (bj.2 - bj.1)).flatMap fun j =>
                (List.range' bi.1 (bi.2 - bi.1)).map fun i =>
                  (j * m + i, xv.getD (i * n + j) 0))
          c := by
  rw [run_sets]
  simp only [foldl_flatMap, List.foldl_map]

/-- Shared final step for the transpose traversals: every cell `q < n*m` is
written, and always with the value determined by decoding `q`. -/
theorem run_sets_transpose {α : Type} [AddCommMonoid α] (xv : List α)
    (m n : Nat) (ws : List (Nat × α))
    (hfst : ∀ q, q < n * m → q ∈ ws.map Prod.fst)
    (hF : ∀ pr ∈ ws, pr.2 = xv.getD ((pr.1 % m) * n + pr.1 / m) 0) :
    run_sets ws (List.replicate (n * m) 0)
      = (List.range (n * m)).map fun q =>
          xv.getD ((q % m) * n + q / m) 0 := by
  apply eq_map_range_of_getD _ _ _ 0
  · rw [run_sets_length, List.length_replicate]
  · intro q hq
    rw [run_sets_getD_fun ws _ (fun q' => xv.getD ((q' % m) * n + q' / m) 0)
      hF q 0 (by rw [List.length_replicate]; exact hq)]
    rw [if_pos (hfst q hq)]

theorem transpose_fst_plain {α : Type} [Zero α] (xv : List α) (m n : Nat) :
    (((List.range n).flatMap fun j =>
        (List.range m).map fun i => (j * m + i, xv.getD (i * n + j) 0)).map
      Prod.fst) = List.range (n * m) := by
  rw [List.map_flatMap, ← chunk_range n m]
  apply List.flatMap_congr
  intro j _
  rw [List.map_map, List.range'_eq_map_range]
  apply List.map_congr_left
  intro i _
  simp [Nat.add_comm]

theorem transpose_ok {α : Type} [AddCommMonoid α] (x : dense_matrix α)
    (hx : x.WF) :
    dense_matrix.transpose x = .ok (dense_matrix.transpose_spec x) := by
  have hnm : x.col_count * x.row_count ≤ USIZE_MAX := by
    rw [Nat.mul_comm]
    exact hx.2
  rw [dense_matrix.transpose, dense_matrix.transpose_spec, mk_default_eq,
    if_pos hnm]
  simp only [dm_res.map, dense_matrix.mk.injEq, dm_res.ok.injEq]
  refine ⟨trivial, trivial, ?_⟩
  rw [transpose_loops]
  show _ = (List.range (x.col_count * x.row_count)).map fun q =>
    x.values.getD ((q % x.row_count) * x.col_count + q / x.row_count) 0
  apply run_sets_transpose
  · intro q hq
    rw [transpose_fst_plain]
    exact List.mem_range.mpr hq
  · intro pr hpr
    rcases List.mem_flatMap.mp hpr with ⟨j, hj, hpr2⟩
    rcases List.mem_map.mp hpr2 with ⟨i, hi, rfl⟩
    have him : i < x.row_count := List.mem_range.mp hi
    rw [enc_mod him, enc_div him]

theorem transpose_tile_ok {α : Type} [AddCommMonoid α] (si : scalar_info)
    (x : dense_matrix α) (tile : Nat) (hx : x.WF) :
    dense_matrix.transpose_tile si x tile
      = .ok (dense_matrix.transpose_spec x) := by
  have hnm : x.col_count * x.row_count ≤ USIZE_MAX := by
    rw [Nat.mul_comm]
    exact hx.2
  rw [dense_matrix.transpose_tile, dense_matrix.transpose_spec, mk_default_eq,
    if_pos hnm]
  simp only [dm_res.map, dm_res.ok.injEq]
  by_cases h0 : x.row_count = 0 ∨ x.col_count = 0
  · rw [if_pos h0]
    have hz : x.col_count * x.row_count = 0 := by
      rcases h0 with h | h <;> simp [h]
    rw [hz]
    rfl
  · rw [if_neg h0]
    by_cases h1 : x.row_count = 1 ∨ x.col_count = 1
    · rw [if_pos h1]
      have hval : x.values
          = (List.range (x.col_count * x.row_count)).map fun q =>
              x.get (q % x.row_count) (q / x.row_count) := by
        apply eq_map_range_of_getD _ _ _ 0
        · rw [hx.1, Nat.mul_comm]
        · intro q hq
          rcases h1 with hm1 | hn1
          · have hidx : q % x.row_count * x.col_count + q / x.row_count
                = q := by
              simp [hm1, Nat.mod_one, Nat.div_one]
            simp [dense_matrix.get, dense_matrix.index_of, hidx]
          · have hqr : q < x.row_count := by
              rw [hn1, Nat.one_mul] at hq
              exact hq
            have hidx : q % x.row_count * x.col_count + q / x.row_count
                = q := by
              rw [Nat.mod_eq_of_lt hqr, Nat.div_eq_of_lt hqr, hn1]
              omega
            simp [dense_matrix.get, dense_matrix.index_of, hidx]
      rw [← hval]
    · rw [if_neg h1]
      have htl : 0 < (if tile = 0 then
          dense_matrix.optimal_tile si x.col_count x.row_count 0
        else tile) := by
        split
        · exact optimal_tile_pos si _ _ _
        · omega
      simp only [dense_matrix.mk.injEq]
      refine ⟨trivial, trivial, ?_⟩
      rw [transpose_tile_loops]
      show _ = (List.range (x.col_count * x.row_count)).map fun q =>
        x.values.getD ((q % x.row_count) * x.col_count + q / x.row_count) 0
      apply run_sets_transpose
      · intro q hq
        have hmpos : 0 < x.row_count := by
          rcases Nat.eq_zero_or_pos x.row_count with h | h
          · rw [h, Nat.mul_zero] at hq
            omega
          · exact h
        have hjlt : q / x.row_count < x.col_count :=
          Nat.div_lt_of_lt_mul (by rwa [Nat.mul_comm] at hq)
        have hilt : q % x.row_count < x.row_count := Nat.mod_lt q hmpos
        have hdec : q = (q / x.row_count) * x.row_count + q % x.row_count := by
          rw [Nat.mul_comm]
          exact (Nat.div_add_mod q x.row_count).symm
        set tl := (if tile = 0 then
          dense_matrix.optimal_tile si x.col_count x.row_count 0
        else tile) with htldef
        have hjmem : q / x.row_count ∈
            (dense_matrix.block_list tl x.col_count 0).flatMap
              (fun b => List.range' b.1 (b.2 - b.1)) := by
          rw [block_list_cover_range tl x.col_count htl]
          exact List.mem_range.mpr hjlt
        have himem : q % x.row_count ∈
            (dense_matrix.block_list tl x.row_count 0).flatMap
              (fun b => List.range' b.1 (b.2 - b.1)) := by
          rw [block_list_cover_range tl x.row_count htl]
          exact List.mem_range.mpr hilt
        rcases List.mem_flatMap.mp hjmem with ⟨bj, hbj, hjin⟩
        rcases List.mem_flatMap.mp himem with ⟨bi, hbi, hiin⟩
        apply List.mem_map.mpr
        refine ⟨(q / x.row_count * x.row_count + q % x.row_count,
          x.values.getD
            ((q % x.row_count) * x.col_count + q / x.row_count) 0), ?_, by omega⟩
        apply List.mem_flatMap.mpr
        refine ⟨bj, hbj, ?_⟩
        apply List.mem_flatMap.mpr
        refine ⟨bi, hbi, ?_⟩
        apply List.mem_flatMap.mpr
        refine ⟨q / x.row_count, hjin, ?_⟩
        apply List.mem_map.mpr
        exact ⟨q % x.row_count, hiin, rfl⟩
      · intro pr hpr
        rcases List.mem_flatMap.mp hpr with ⟨bj, hbj, hpr2⟩
        rcases List.mem_flatMap.mp hpr2 with ⟨bi, hbi, hpr3⟩
        rcases List.mem_flatMap.mp hpr3 with ⟨j, hjin, hpr4⟩
        rcases List.mem_map.mp hpr4 with ⟨i, hiin, rfl⟩
        have hbnd := block_list_mem _ _ _ bi hbi
        have him : i < x.row_count := by
          rcases List.mem_range'.mp hiin with ⟨idx, hidx, rfl⟩
          omega
        rw [enc_mod him, enc_div him]

theorem product_fst {α : Type} (f : Nat → Nat → α) (m n : Nat) :
    (((List.range m).flatMap fun i =>
        (List.range n).map fun j => (i * n + j, f i j)).map Prod.fst)
      = List.range (m * n) := by
  rw [List.map_flatMap, ← chunk_range m n]
  apply List.flatMap_congr
  intro i _
  rw [List.map_map, List.range'_eq_map_range]
  apply List.map_congr_left
  intro j _
  simp [Nat.add_comm]

/-- The dot-product loop nest of `mul_transpose` is `run_sets` over its write
list. -/
theorem mul_transpose_loops {α : Type} [AddCommMonoid α] [Mul α]
    (av btv c : List α) (m k n : Nat) :
    ((List.range m).foldl (fun c i =>
      (List.range n).foldl (fun c j =>
        c.set (i * n + j)
          ((List.range k).foldl (fun s p =>
            s + av.getD (i * k + p) 0 * btv.getD (j * k + p) 0) 0)) c) c)
      = run_sets
          ((List.range m).flatMap fun i =>
            (List.range n).map fun j =>
              (i * n + j,
                (List.range k).foldl (fun s p =>
                  s + av.getD (i * k + p) 0 * btv.getD (j * k + p) 0) 0))
          c := by
  rw [run_sets]
  simp only [foldl_flatMap, List.foldl_map]

theorem mul_transpose_ok {α : Type} [AddCommMonoid α] [Mul α]
    (si : scalar_info) (a b : dense_matrix α) (tile : Nat) (hb : b.WF)
    (hk : a.col_count = b.row_count)
    (hmn : a.row_count * b.col_count ≤ USIZE_MAX) :
    dense_matrix.mul_transpose si a b tile
      = .ok (dense_matrix.mat_product_spec a b) := by
  rw [dense_matrix.mul_transpose, mk_default_eq, if_pos hmn]
  simp only [dm_res.bind, dense_matrix.size, List.length_replicate]
  by_cases hz : a.row_count * b.col_count = 0
  · rw [if_pos hz, dense_matrix.mat_product_spec, hz]
    rfl
  · rw [if_neg hz, transpose_tile_ok si b tile hb]
    rw [dense_matrix.mat_product_spec]
    simp only [dm_res.map, dm_res.ok.injEq, dense_matrix.mk.injEq]
    refine ⟨trivial, trivial, ?_⟩
    rw [mul_transpose_loops]
    apply eq_map_range_of_getD _ _ _ 0
    · rw [run_sets_length, List.length_replicate]
    · intro q hq
      rw [run_sets_getD_fun _ _
        (fun q' => ∑ p ∈ Finset.range a.col_count,
          a.get (q' / b.col_count) p * b.get p (q' % b.col_count)) ?hF q 0
        (by rw [List.length_replicate]; exact hq)]
      · rw [if_pos]
        rw [product_fst]
        exact List.mem_range.mpr hq
      case hF =>
        intro pr hpr
        rcases List.mem_flatMap.mp hpr with ⟨i, hi, hpr2⟩
        rcases List.mem_map.mp hpr2 with ⟨j, hj, rfl⟩
        have him : i < a.row_count := List.mem_range.mp hi
        have hjn : j < b.col_count := List.mem_range.mp hj
        dsimp only
        rw [foldl_add_sum, zero_add, list_sum_range, enc_div hjn, enc_mod hjn]
        apply Finset.sum_congr rfl
        intro p hp
        have hpk : p < a.col_count := Finset.mem_range.mp hp
        have hpb : p < b.row_count := by
          rw [← hk]
          exact hpk
        congr 1
        rw [dense_matrix.transpose_spec, hk]
        rw [list_getD_map_range _ _ _ _ ?hlt]
        case hlt =>
          calc j * b.row_count + p < j * b.row_count + b.row_count := by
                omega
            _ = (j + 1) * b.row_count := by ring
            _ ≤ b.col_count * b.row_count := by
                apply Nat.mul_le_mul_right
                omega
        rw [enc_mod hpb, enc_div hpb]

/-! ## Top-level multiply -/

theorem multiply_eq_spec {α : Type} [AddCommMonoid α] [Mul α]
    (si : scalar_info) (a b : dense_matrix α) (algo : dense_matrix.mul_algo)
    (tile : Nat) (hb : b.WF) (hk : a.col_count = b.row_count)
    (hmn : a.row_count * b.col_count ≤ USIZE_MAX) :
    dense_matrix.multiply si a b algo tile
      = .ok (dense_matrix.mat_product_spec a b) := by
  cases algo
  · rw [dense_matrix.multiply, if_neg (fun h => h hk)]
    exact mul_native_ok a b hmn
  · rw [dense_matrix.multiply, if_neg (fun h => h hk)]
    exact mul_transpose_ok si a b tile hb hk hmn
  · rw [dense_matrix.multiply, if_neg (fun h => h hk)]
    exact mul_block_ijp_ok si a b tile hmn
  · rw [dense_matrix.multiply, if_neg (fun h => h hk)]
    exact mul_block_ipj_ok si a b tile hmn

theorem multiply_mismatch {α : Type} [AddCommMonoid α] [Mul α]
    (si : scalar_info) (a b : dense_matrix α) (algo : dense_matrix.mul_algo)
    (tile : Nat) (h : a.col_count ≠ b.row_count) :
    dense_matrix.multiply si a b algo tile
      = .error (.invalid_argument
          "dense_matrix::multiply: incompatible shapes") := by
  rw [dense_matrix.multiply.eq_def, if_pos h]

theorem multiply_overflow {α : Type} [AddCommMonoid α] [Mul α]
    (si : scalar_info) (a b : dense_matrix α) (algo : dense_matrix.mul_algo)
    (tile : Nat) (hk : a.col_count = b.row_count)
    (hmn : ¬ a.row_count * b.col_count ≤ USIZE_MAX) :
    dense_matrix.multiply si a b algo tile
      = .error (.overflow_error "rows*cols overflows size_t") := by
  cases algo
  · rw [dense_matrix.multiply, if_neg (fun h => h hk),
      dense_matrix.mul_native, mk_default_eq, if_neg hmn]
    rfl
  · rw [dense_matrix.multiply, if_neg (fun h => h hk),
      dense_matrix.mul_transpose, mk_default_eq, if_neg hmn]
    rfl
  · rw [dense_matrix.multiply, if_neg (fun h => h hk),
      dense_matrix.mul_block_ijp, mk_default_eq, if_neg hmn]
    rfl
  · rw [dense_matrix.multiply, if_neg (fun h => h hk),
      dense_matrix.mul_block_ipj, mk_default_eq, if_neg hmn]
    rfl

/-- With compatible shapes the result is a value or a propagated overflow;
in particular no invalid-argument failure is possible past the shape check. -/
theorem multiply_compat_cases {α : Type} [AddCommMonoid α] [Mul α]
    (si : scalar_info) (a b : dense_matrix α) (algo : dense_matrix.mul_algo)
    (tile : Nat) (hk : a.col_count = b.row_count) :
    (∃ c, dense_matrix.multiply si a b algo tile = .ok c) ∨
      (∃ msg, dense_matrix.multiply si a b algo tile
        = .error (.overflow_error msg)) := by
  by_cases hmn : a.row_count * b.col_count ≤ USIZE_MAX
  · cases algo
    · left
      rw [dense_matrix.multiply, if_neg (fun h => h hk),
        dense_matrix.mul_native, mk_default_eq, if_pos hmn, dm_res.map]
      exact ⟨_, rfl⟩
    · rw [dense_matrix.multiply, if_neg (fun h => h hk),
        dense_matrix.mul_transpose, mk_default_eq, if_pos hmn]
      simp only [dm_res.bind]
      split
      · exact Or.inl ⟨_, rfl⟩
      · rw [dense_matrix.transpose_tile, mk_default_eq]
        by_cases hnk : b.col_count * b.row_count ≤ USIZE_MAX
        · rw [if_pos hnk]
          simp only [dm_res.map]
          exact Or.inl ⟨_, rfl⟩
        · rw [if_neg hnk]
          simp only [dm_res.map]
          exact Or.inr ⟨_, rfl⟩
    · left
      rw [dense_matrix.multiply, if_neg (fun h => h hk),
        dense_matrix.mul_block_ijp, mk_default_eq, if_pos hmn, dm_res.map]
      exact ⟨_, rfl⟩
    · left
      rw [dense_matrix.multiply, if_neg (fun h => h hk),
        dense_matrix.mul_block_ipj, mk_default_eq, if_pos hmn, dm_res.map]
      exact ⟨_, rfl⟩
  · exact Or.inr ⟨_, multiply_overflow si a b algo tile hk hmn⟩

/-! ## Elementwise add support -/

theorem list_getD_zipWith {α : Type} (f : α → α → α) (l1 l2 : List α)
    (q : Nat) (d : α) (h1 : q < l1.length) (h2 : q < l2.length) :
    (List.zipWith f l1 l2).getD q d = f (l1.getD q d) (l2.getD q d) := by
  have hz : q < (List.zipWith f l1 l2).length := by
    rw [List.length_zipWith]
    omega
  rw [List.getD_eq_getElem _ d hz, List.getD_eq_getElem _ d h1,
    List.getD_eq_getElem _ d h2]
  exact List.getElem_zipWith

/-- The in-place accumulation loop of `operator+=`. -/
theorem add_assign_fold {α : Type} [AddCommMonoid α] (v src : List α) :
    ((List.range v.length).foldl
      (fun v i => v.set i (v.getD i 0 + src.getD i 0)) v)
      = run_adds ((List.range v.length).map fun i => (i, src.getD i 0)) v := by
  rw [run_adds]
  simp only [List.foldl_map]

theorem add_assign_fold_getD {α : Type} [AddCommMonoid α] (v src : List α)
    (q : Nat) (h : q < v.length) :
    ((List.range v.length).foldl
      (fun v i => v.set i (v.getD i 0 + src.getD i 0)) v).getD q 0
      = v.getD q 0 + src.getD q 0 := by
  rw [add_assign_fold, run_adds_getD _ _ _ h]
  congr 1
  rw [List.filter_map]
  have hcongr : ∀ i ∈ List.range v.length,
      ((fun t : Nat × α => t.1 == q) ∘ (fun i => (i, src.getD i 0))) i
        = (i == q) := by
    intro i _
    rfl
  rw [List.filter_congr hcongr, filter_beq_of_nodup (List.nodup_range _) q,
    if_pos (List.mem_range.mpr h)]
  simp

theorem add_assign_fold_length {α : Type} [AddCommMonoid α] (v src : List α) :
    ((List.range v.length).foldl
      (fun v i => v.set i (v.getD i 0 + src.getD i 0)) v).length
      = v.length := by
  rw [add_assign_fold, run_adds_length]

/-! ## Remaining helpers for the claims -/

theorem enc_lt {m n i j : Nat} (hi : i < m) (hj : j < n) :
    i * n + j < m * n := by
  calc i * n + j < i * n + n := by omega
    _ = (i + 1) * n := by ring
    _ ≤ m * n := Nat.mul_le_mul_right n (by omega)

theorem map_const_range {α : Type} (N : Nat) (c : α) :
    (List.range N).map (fun _ => c) = List.replicate N c := by
  induction N with
  | zero => rfl
  | succ N ih =>
    rw [List.range_succ, List.map_append, ih, List.replicate_succ']
    rfl

theorem mat_product_spec_get {α : Type} [AddCommMonoid α] [Mul α]
    (a b : dense_matrix α) (i j : Nat) (hi : i < a.row_count)
    (hj : j < b.col_count) :
    (dense_matrix.mat_product_spec a b).get i j
      = ∑ p ∈ Finset.range a.col_count, a.get i p * b.get p j := by
  rw [dense_matrix.mat_product_spec, dense_matrix.get, dense_matrix.index_of]
  simp only []
  rw [list_getD_map_range _ _ _ _ (enc_lt hi hj), enc_div hj, enc_mod hj]

theorem transpose_spec_get {α : Type} [AddCommMonoid α]
    (x : dense_matrix α) (i j : Nat) (hi : i < x.row_count)
    (hj : j < x.col_count) :
    (dense_matrix.transpose_spec x).get j i = x.get i j := by
  rw [dense_matrix.transpose_spec, dense_matrix.get, dense_matrix.index_of]
  simp only []
  rw [list_getD_map_range _ _ _ _ (enc_lt hj hi), enc_div hi, enc_mod hi]

theorem multiply_ok_shapes {α : Type} [AddCommMonoid α] [Mul α]
    (si : scalar_info) (a b : dense_matrix α) (algo : dense_matrix.mul_algo)
    (tile : Nat) (m' : dense_matrix α)
    (h : dense_matrix.multiply si a b algo tile = .ok m') :
    a.col_count = b.row_count ∧ a.row_count * b.col_count ≤ USIZE_MAX := by
  by_cases hk : a.col_count = b.row_count
  · refine ⟨hk, ?_⟩
    by_cases hmn : a.row_count * b.col_count ≤ USIZE_MAX
    · exact hmn
    · rw [multiply_overflow si a b algo tile hk hmn] at h
      exact absurd h (by simp)
  · rw [multiply_mismatch si a b algo tile hk] at h
    exact absurd h (by simp)

/-- The two stages of the heuristic that the amendment re-orders agree with
the source pipeline. -/
theorem tile_stage_eq (vec raw : Nat) (hvec : 0 < vec)
    (hvv : vec / vec * vec = vec) :
    ((if raw < vec then vec else raw) / vec) * vec
      = if (raw / vec) * vec = 0 then vec else (raw / vec) * vec := by
  by_cases hr : raw < vec
  · rw [if_pos hr, hvv, Nat.div_eq_of_lt hr, Nat.zero_mul, if_pos rfl]
  · rw [if_neg hr]
    have h2 : 1 ≤ raw / vec :=
      (Nat.one_le_div_iff hvec).mpr (Nat.le_of_not_lt hr)
    have h3 : vec ≤ (raw / vec) * vec := by
      calc vec = 1 * vec := (Nat.one_mul vec).symm
        _ ≤ (raw / vec) * vec := Nat.mul_le_mul_right vec h2
    rw [if_neg (by omega)]

theorem tile_clamp_vec_eq (vec vec' t3 m n k : Nat) (h3 : 0 < t3) :
    tile_clamp vec t3 m n k = tile_clamp vec' t3 m n k := by
  rw [tile_clamp, tile_clamp]
  split_ifs <;> omega

/-! ## The claims -/

/-- C1: for every pair of matrices `A` (m×k) and `B` (k×n) over a scalar with
exact arithmetic, for each of the four algorithms and every tile argument
including 0, `multiply(A, B, algo, tile)` returns the m×n matrix whose entry
`(i, j)` is the sum over `p < k` of `A(i,p) * B(p,j)`; in particular all four
algorithms (and all tile choices) produce identical results. -/
theorem C1_multiply_product {α : Type} [AddCommMonoid α] [Mul α]
    (si : scalar_info) (algo : dense_matrix.mul_algo) (tile : Nat)
    (a b : dense_matrix α) (ha : a.WF) (hb : b.WF)
    (hk : a.col_count = b.row_count)
    (hmn : a.row_count * b.col_count ≤ USIZE_MAX) :
    dense_matrix.multiply si a b algo tile
      = .ok (dense_matrix.mat_product_spec a b)
    ∧ (dense_matrix.mat_product_spec a b).row_count = a.row_count
    ∧ (dense_matrix.mat_product_spec a b).col_count = b.col_count
    ∧ (∀ i, i < a.row_count → ∀ j, j < b.col_count →
        (dense_matrix.mat_product_spec a b).get i j
          = ∑ p ∈ Finset.range a.col_count, a.get i p * b.get p j)
    ∧ (∀ algo' tile', dense_matrix.multiply si a b algo tile
        = dense_matrix.multiply si a b algo' tile') := by
  refine ⟨multiply_eq_spec si a b algo tile hb hk hmn, rfl, rfl, ?_, ?_⟩
  · intro i hi j hj
    exact mat_product_spec_get a b i j hi hj
  · intro algo' tile'
    rw [multiply_eq_spec si a b algo tile hb hk hmn,
      multiply_eq_spec si a b algo' tile' hb hk hmn]

/-- Witness for C1 at the specification's own example: `A = [[1,2,3],[4,5,6]]`,
`B = [[7,8],[9,10],[11,12]]`, product `[[58,64],[139,154]]`. -/
theorem C1_multiply_product_witness :
    dense_matrix.multiply ⟨4, false⟩
        (⟨2, 3, [1, 2, 3, 4, 5, 6]⟩ : dense_matrix Int)
        ⟨3, 2, [7, 8, 9, 10, 11, 12]⟩ .block_ijp 2
      = .ok (dense_matrix.mat_product_spec
          (⟨2, 3, [1, 2, 3, 4, 5, 6]⟩ : dense_matrix Int)
          ⟨3, 2, [7, 8, 9, 10, 11, 12]⟩)
    ∧ dense_matrix.mat_product_spec
        (⟨2, 3, [1, 2, 3, 4, 5, 6]⟩ : dense_matrix Int)
        ⟨3, 2, [7, 8, 9, 10, 11, 12]⟩
      = ⟨2, 2, [58, 64, 139, 154]⟩ :=
  ⟨(C1_multiply_product ⟨4, false⟩ .block_ijp 2
      (⟨2, 3, [1, 2, 3, 4, 5, 6]⟩ : dense_matrix Int)
      ⟨3, 2, [7, 8, 9, 10, 11, 12]⟩
      (by decide) (by decide) (by decide) (by decide)).1,
    by decide⟩

/-- C2 counterexample: for a 43-byte scalar (legal: the scalar concept admits
arbitrary value types) with dimensions 4×4×4, the source heuristic bumps the
root up to the width *before* rounding down (yielding 16, then clamped to 4),
while the claim's pipeline rounds 15 down to 0 and substitutes the width only
at the end (yielding 16): 4 ≠ 16. -/
theorem sqrt_254 : Nat.sqrt 254 = 15 := by
  have h1 : Nat.sqrt 254 < 16 := Nat.sqrt_lt.mpr (by norm_num)
  have h2 : 15 ≤ Nat.sqrt 254 := Nat.le_sqrt.mpr (by norm_num)
  omega

theorem sqrt_1365 : Nat.sqrt 1365 = 36 := by
  have h1 : Nat.sqrt 1365 < 37 := Nat.sqrt_lt.mpr (by norm_num)
  have h2 : 36 ≤ Nat.sqrt 1365 := Nat.le_sqrt.mpr (by norm_num)
  omega

theorem C2_tile_counterexample :
    dense_matrix.optimal_tile ⟨43, false⟩ 4 4 4
      ≠ dense_matrix.optimal_tile_claim ⟨43, false⟩ 4 4 4 := by
  have hA : dense_matrix.optimal_tile ⟨43, false⟩ 4 4 4 = 4 := by
    rw [dense_matrix.optimal_tile]
    norm_num [sqrt_254]
  have hB : dense_matrix.optimal_tile_claim ⟨43, false⟩ 4 4 4 = 16 := by
    rw [dense_matrix.optimal_tile_claim]
    norm_num [sqrt_254]
  rw [hA, hB]
  omega

/-- C2 (amended): `optimal_tile` equals the claim's pipeline with the width
substitution moved to the rounding step (the only stage where a zero can
arise), i.e. before the 256 cap and the dimension clamps; and the result
depends only on `sizeof(T)` and the dimensions (the `double` test cannot be
observed: for the one size it singles out, both widths round 36 to 32). -/
theorem C2_optimal_tile_amended :
    (∀ si m n k, dense_matrix.optimal_tile si m n k
      = dense_matrix.optimal_tile_amended si m n k)
    ∧ (∀ m n k, dense_matrix.optimal_tile ⟨8, true⟩ m n k
      = dense_matrix.optimal_tile ⟨8, false⟩ m n k) := by
  constructor
  · intro si m n k
    have hvec : 0 < (if si.is_double then (8 : Nat) else 16) := by
      cases si.is_double <;> norm_num
    have hvv : (if si.is_double then (8 : Nat) else 16) /
          (if si.is_double then (8 : Nat) else 16) *
          (if si.is_double then (8 : Nat) else 16)
        = (if si.is_double then (8 : Nat) else 16) := by
      cases si.is_double <;> norm_num
    have hstage := tile_stage_eq (if si.is_double then (8 : Nat) else 16)
      (Nat.sqrt (32 * 1024 / (3 * si.bytes))) hvec hvv
    rw [dense_matrix.optimal_tile, dense_matrix.optimal_tile_amended]
    rw [hstage]
    have hcap : ∀ x : Nat, (if x > 256 then 256 else x) = min x 256 := by
      intro x
      split <;> omega
    rw [hcap]
  · intro m n k
    have hL : dense_matrix.optimal_tile ⟨8, true⟩ m n k
        = tile_clamp 8 32 m n k := by
      rw [dense_matrix.optimal_tile, tile_clamp]
      norm_num [sqrt_1365]
    have hR : dense_matrix.optimal_tile ⟨8, false⟩ m n k
        = tile_clamp 16 32 m n k := by
      rw [dense_matrix.optimal_tile, tile_clamp]
      norm_num [sqrt_1365]
    rw [hL, hR]
    exact tile_clamp_vec_eq 8 16 32 m n k (by omega)

/-- C3: `multiply` fails with invalid-argument exactly when `A.cols ≠ B.rows`
(under every algorithm and tile size, the shape check coming first), and with
compatible shapes whose result element count overflows `size_t`, the
construction overflow error propagates out. -/
theorem C3_multiply_errors {α : Type} [AddCommMonoid α] [Mul α]
    (si : scalar_info) (a b : dense_matrix α) (algo : dense_matrix.mul_algo)
    (tile : Nat) :
    ((∃ msg, dense_matrix.multiply si a b algo tile
        = .error (.invalid_argument msg)) ↔ a.col_count ≠ b.row_count)
    ∧ (a.col_count = b.row_count →
        a.row_count * b.col_count > USIZE_MAX →
        dense_matrix.multiply si a b algo tile
          = .error (.overflow_error "rows*cols overflows size_t")) := by
  constructor
  · constructor
    · rintro ⟨msg, hmsg⟩ hk
      rcases multiply_compat_cases si a b algo tile hk with ⟨c, hc⟩ | ⟨m2, hm2⟩
      · rw [hc] at hmsg
        exact dm_res.noConfusion hmsg
      · rw [hm2] at hmsg
        have := dm_res.error.inj hmsg
        exact dm_error.noConfusion this
    · intro hk
      exact ⟨_, multiply_mismatch si a b algo tile hk⟩
  · intro hk hgt
    exact multiply_overflow si a b algo tile hk (by omega)

/-- Witness for C3: the spec's 2×3 by 4×2 mismatch rejection, and a compatible
pair whose 2^32 × 2^32 result count overflows `size_t`. -/
theorem C3_multiply_errors_witness :
    (∃ msg, dense_matrix.multiply ⟨8, false⟩
        (⟨2, 3, [1, 2, 3, 4, 5, 6]⟩ : dense_matrix Int)
        ⟨4, 2, [1, 2, 3, 4, 5, 6, 7, 8]⟩ .block_ipj 0
      = .error (.invalid_argument msg))
    ∧ dense_matrix.multiply ⟨8, false⟩
        (⟨2 ^ 32, 0, []⟩ : dense_matrix Int) ⟨0, 2 ^ 32, []⟩ .native 3
      = .error (.overflow_error "rows*cols overflows size_t") :=
  ⟨(C3_multiply_errors ⟨8, false⟩
      (⟨2, 3, [1, 2, 3, 4, 5, 6]⟩ : dense_matrix Int)
      ⟨4, 2, [1, 2, 3, 4, 5, 6, 7, 8]⟩ .block_ipj 0).1.mpr (by decide),
    (C3_multiply_errors ⟨8, false⟩
      (⟨2 ^ 32, 0, []⟩ : dense_matrix Int) ⟨0, 2 ^ 32, []⟩ .native 3).2
      (by decide) (by norm_num [USIZE_MAX])⟩

/-- C4 counterexample: with k = 0 and m = n = 1 the product is the 1×1
zero-filled matrix `[0]`, which is not an empty result (its element count is
1), contradicting the claim that any zero dimension yields an empty result. -/
theorem C4_zero_dim_counterexample :
    dense_matrix.multiply ⟨8, false⟩ (⟨1, 0, []⟩ : dense_matrix Int)
        ⟨0, 1, []⟩ .native 0
      = .ok ⟨1, 1, [0]⟩
    ∧ (⟨1, 1, [(0 : Int)]⟩ : dense_matrix Int).size ≠ 0 := by
  constructor
  · decide
  · decide

/-- C4 (amended): with compatible shapes and a zero dimension (m, n or k),
every algorithm and tile returns the appropriately-shaped result with all
cells zero-initialised — an empty matrix when m = 0 or n = 0 — and all four
algorithms agree on it without doing any accumulation work. -/
theorem C4_zero_dim_amended {α : Type} [AddCommMonoid α] [Mul α]
    (si : scalar_info) (algo : dense_matrix.mul_algo) (tile : Nat)
    (a b : dense_matrix α) (ha : a.WF) (hb : b.WF)
    (hk : a.col_count = b.row_count)
    (hmn : a.row_count * b.col_count ≤ USIZE_MAX)
    (hz : a.row_count = 0 ∨ a.col_count = 0 ∨ b.col_count = 0) :
    dense_matrix.multiply si a b algo tile
      = .ok ⟨a.row_count, b.col_count,
          List.replicate (a.row_count * b.col_count) 0⟩ := by
  rw [multiply_eq_spec si a b algo tile hb hk hmn,
    dense_matrix.mat_product_spec]
  have hval : ((List.range (a.row_count * b.col_count)).map fun q =>
      ∑ p ∈ Finset.range a.col_count,
        a.get (q / b.col_count) p * b.get p (q % b.col_count))
      = List.replicate (a.row_count * b.col_count) (0 : α) := by
    rcases hz with h | h | h
    · rw [h, Nat.zero_mul]
      rfl
    · rw [← map_const_range]
      apply List.map_congr_left
      intro q _
      rw [h]
      exact Finset.sum_range_zero _
    · rw [h, Nat.mul_zero]
      rfl
  rw [hval]

/-- Witness for C4 (amended): a 2×0 by 0×3 product under the transpose
algorithm with tile 5 yields the 2×3 zero matrix. -/
theorem C4_zero_dim_amended_witness :
    dense_matrix.multiply ⟨8, false⟩ (⟨2, 0, []⟩ : dense_matrix Int)
        ⟨0, 3, []⟩ .transpose 5
      = .ok ⟨2, 3, List.replicate 6 0⟩ :=
  C4_zero_dim_amended ⟨8, false⟩ .transpose 5
    (⟨2, 0, []⟩ : dense_matrix Int) ⟨0, 3, []⟩
    (by decide) (by decide) (by decide) (by decide) (by decide)

/-- C5: `add(a, b)` returns `b` unchanged when `a` is empty; otherwise `a`
unchanged when `b` is empty; otherwise rejects differing shapes with
invalid-argument; and otherwise returns a new same-shaped matrix of the
elementwise sums (operands are never mutated: `add` is a pure function of its
arguments in this embedding). -/
theorem C5_add_cases {α : Type} [AddCommMonoid α] (a b : dense_matrix α)
    (ha : a.WF) (hb : b.WF) :
    (a.size = 0 → dense_matrix.add a b = .ok b)
    ∧ (a.size ≠ 0 → b.size = 0 → dense_matrix.add a b = .ok a)
    ∧ (a.size ≠ 0 → b.size ≠ 0 →
        (a.row_count ≠ b.row_count ∨ a.col_count ≠ b.col_count) →
        ∃ msg, dense_matrix.add a b = .error (.invalid_argument msg))
    ∧ (a.size ≠ 0 → b.size ≠ 0 → a.row_count = b.row_count →
        a.col_count = b.col_count →
        ∃ c, dense_matrix.add a b = .ok c
          ∧ c.row_count = a.row_count ∧ c.col_count = a.col_count
          ∧ c.values.length = a.row_count * a.col_count
          ∧ ∀ q, q < c.values.length →
              c.values.getD q 0 = a.values.getD q 0 + b.values.getD q 0) := by
  refine ⟨?_, ?_, ?_, ?_⟩
  · intro h0
    rw [dense_matrix.add, if_pos h0]
  · intro ha0 hb0
    rw [dense_matrix.add, if_neg ha0, if_pos hb0]
  · intro ha0 hb0 hsh
    rw [dense_matrix.add, if_neg ha0, if_neg hb0, if_pos hsh]
    exact ⟨_, rfl⟩
  · intro ha0 hb0 hr hc
    rw [dense_matrix.add, if_neg ha0, if_neg hb0, if_neg (by simp [hr, hc]),
      mk_default_eq, if_pos ha.2]
    simp only [dm_res.map]
    refine ⟨_, rfl, rfl, rfl, ?_, ?_⟩
    · rw [List.length_zipWith, ha.1, hb.1, hr, hc]
      exact Nat.min_self _
    · intro q hq
      rw [List.length_zipWith] at hq
      exact list_getD_zipWith _ _ _ _ _ (by omega) (by omega)

/-- Witness for C5 at a concrete same-shape sum. -/
theorem C5_add_cases_witness :
    ∃ c, dense_matrix.add (⟨2, 2, [1, 2, 3, 4]⟩ : dense_matrix Int)
        ⟨2, 2, [10, 20, 30, 40]⟩ = .ok c
      ∧ c.row_count = 2 ∧ c.col_count = 2
      ∧ c.values.length = 2 * 2
      ∧ ∀ q, q < c.values.length →
          c.values.getD q 0
            = (⟨2, 2, [1, 2, 3, 4]⟩ : dense_matrix Int).values.getD q 0 +
              (⟨2, 2, [(10 : Int), 20, 30, 40]⟩ :
                dense_matrix Int).values.getD q 0 :=
  (C5_add_cases (⟨2, 2, [1, 2, 3, 4]⟩ : dense_matrix Int)
      ⟨2, 2, [10, 20, 30, 40]⟩ (by decide) (by decide)).2.2.2
    (by decide) (by decide) (by decide) (by decide)

/-- C6 counterexample: with an empty 0×0 receiver and an empty 2×0 right-hand
side, `operator+=` is a no-op keeping the receiver's 0×0 shape — it does not
adopt the operand's 2×0 shape as the claim's receiver-empty clause demands,
because the source tests `rhs.size() == 0` first. -/
theorem C6_add_assign_counterexample :
    dense_matrix.add_assign (⟨0, 0, []⟩ : dense_matrix Int) ⟨2, 0, []⟩
      = (⟨0, 0, []⟩, none)
    ∧ dense_matrix.add_assign (⟨0, 0, []⟩ : dense_matrix Int) ⟨2, 0, []⟩
      ≠ (⟨2, 0, []⟩, none) := by
  constructor
  · decide
  · decide

/-- C6 (amended): `operator+=` first treats an empty right-hand side as a
no-op (this takes precedence, including when the receiver is also empty);
otherwise an empty receiver adopts the right-hand operand's shape and
contents; otherwise differing shapes fail with invalid-argument leaving the
receiver untouched; otherwise it adds elementwise in place. -/
theorem C6_add_assign_amended {α : Type} [AddCommMonoid α]
    (self rhs : dense_matrix α) :
    (rhs.size = 0 → dense_matrix.add_assign self rhs = (self, none))
    ∧ (rhs.size ≠ 0 → self.size = 0 →
        dense_matrix.add_assign self rhs
          = (⟨rhs.row_count, rhs.col_count, rhs.values⟩, none))
    ∧ (rhs.size ≠ 0 → self.size ≠ 0 →
        (self.row_count ≠ rhs.row_count ∨ self.col_count ≠ rhs.col_count) →
        ∃ msg, dense_matrix.add_assign self rhs
          = (self, some (.invalid_argument msg)))
    ∧ (rhs.size ≠ 0 → self.size ≠ 0 → self.row_count = rhs.row_count →
        self.col_count = rhs.col_count →
        ∃ c, dense_matrix.add_assign self rhs = (c, none)
          ∧ c.row_count = self.row_count ∧ c.col_count = self.col_count
          ∧ c.values.length = self.values.length
          ∧ ∀ q, q < self.values.length →
              c.values.getD q 0
                = self.values.getD q 0 + rhs.values.getD q 0) := by
  refine ⟨?_, ?_, ?_, ?_⟩
  · intro h0
    rw [dense_matrix.add_assign, if_pos h0]
  · intro hr0 hs0
    have hempty : self.values.isEmpty = true := by
      rw [List.isEmpty_iff_length_eq_zero]
      exact hs0
    rw [dense_matrix.add_assign, if_neg hr0, if_pos hempty]
  · intro hr0 hs0 hsh
    have hempty : ¬ (self.values.isEmpty = true) := by
      simp only [List.isEmpty_iff_length_eq_zero]
      exact hs0
    rw [dense_matrix.add_assign, if_neg hr0, if_neg hempty, if_pos hsh]
    exact ⟨_, rfl⟩
  · intro hr0 hs0 hr hc
    have hempty : ¬ (self.values.isEmpty = true) := by
      simp only [List.isEmpty_iff_length_eq_zero]
      exact hs0
    rw [dense_matrix.add_assign, if_neg hr0, if_neg hempty,
      if_neg (by simp [hr, hc])]
    refine ⟨_, rfl, rfl, rfl, ?_, ?_⟩
    · exact add_assign_fold_length self.values rhs.values
    · intro q hq
      exact add_assign_fold_getD self.values rhs.values q hq

/-- Witness for C6 (amended), exercising the in-place elementwise branch. -/
theorem C6_add_assign_amended_witness :
    ∃ c, dense_matrix.add_assign (⟨1, 2, [1, 2]⟩ : dense_matrix Int)
        ⟨1, 2, [5, 7]⟩ = (c, none)
      ∧ c.row_count = 1 ∧ c.col_count = 1 + 1
      ∧ c.values.length = 2
      ∧ ∀ q, q < (⟨1, 2, [(1 : Int), 2]⟩ : dense_matrix Int).values.length →
          c.values.getD q 0
            = (⟨1, 2, [(1 : Int), 2]⟩ : dense_matrix Int).values.getD q 0 +
              (⟨1, 2, [(5 : Int), 7]⟩ : dense_matrix Int).values.getD q 0 :=
  (C6_add_assign_amended (⟨1, 2, [1, 2]⟩ : dense_matrix Int)
      ⟨1, 2, [5, 7]⟩).2.2.2 (by decide) (by decide) (by decide) (by decide)

/-- C7: no operation performs partial mutation on failure: a failing
`operator+=` leaves the receiver exactly as it was (its shape check precedes
the in-place loop), and a failing `add`, `multiply` or construction yields
only the error — no result matrix is observable alongside it. -/
theorem C7_no_partial_mutation {α : Type} [AddCommMonoid α] [Mul α]
    (si : scalar_info) (algo : dense_matrix.mul_algo) (tile : Nat)
    (self rhs a b : dense_matrix α) (r c : Nat) :
    ((dense_matrix.add_assign self rhs).2.isSome →
      (dense_matrix.add_assign self rhs).1 = self)
    ∧ (∀ e m', dense_matrix.add a b = .error e →
        dense_matrix.add a b ≠ .ok m')
    ∧ (∀ e m', dense_matrix.multiply si a b algo tile = .error e →
        dense_matrix.multiply si a b algo tile ≠ .ok m')
    ∧ (∀ e m', dense_matrix.mk_default (α := α) r c = .error e →
        dense_matrix.mk_default (α := α) r c ≠ .ok m') := by
  refine ⟨?_, ?_, ?_, ?_⟩
  · rw [dense_matrix.add_assign]
    split_ifs <;> simp
  · intro e m' he hm'
    rw [he] at hm'
    exact dm_res.noConfusion hm'
  · intro e m' he hm'
    rw [he] at hm'
    exact dm_res.noConfusion hm'
  · intro e m' he hm'
    rw [he] at hm'
    exact dm_res.noConfusion hm'

/-- Witness for C7: a shape-mismatch `+=` reports an error and the receiver
is unchanged. -/
theorem C7_no_partial_mutation_witness :
    (dense_matrix.add_assign (⟨1, 2, [1, 2]⟩ : dense_matrix Int)
      ⟨2, 1, [3, 4]⟩).1 = ⟨1, 2, [1, 2]⟩ :=
  (C7_no_partial_mutation ⟨8, false⟩ .native 0
      (⟨1, 2, [1, 2]⟩ : dense_matrix Int) ⟨2, 1, [3, 4]⟩
      (⟨1, 2, [1, 2]⟩ : dense_matrix Int) ⟨2, 1, [3, 4]⟩ 1 1).1
    (by decide)

/-- C8: every matrix produced by a constructor or an operation satisfies
`values.length = row_count * col_count`, and any construction whose requested
element count would overflow `size_t` fails with the overflow error instead of
wrapping around (copies and moves preserve the representation verbatim in
this value-semantics embedding, so they are covered trivially). -/
theorem C8_shape_invariant {α : Type} [AddCommMonoid α] [Mul α]
    (si : scalar_info) (algo : dense_matrix.mul_algo) (tile : Nat)
    (r c : Nat) (data : Option (Nat → α)) (init : List α)
    (a b x : dense_matrix α) :
    (∀ m', dense_matrix.mk_default (α := α) r c = .ok m' →
        m'.values.length = m'.row_count * m'.col_count
        ∧ m'.row_count = r ∧ m'.col_count = c ∧ m'.values.length = r * c)
    ∧ (∀ m', dense_matrix.mk_from_ptr r c data = .ok m' →
        m'.values.length = m'.row_count * m'.col_count)
    ∧ (∀ m', dense_matrix.mk_from_init r c init = .ok m' →
        m'.values.length = m'.row_count * m'.col_count)
    ∧ (r * c > USIZE_MAX →
        dense_matrix.mk_default (α := α) r c
          = .error (.overflow_error "rows*cols overflows size_t")
        ∧ dense_matrix.mk_from_ptr r c data
          = .error (.overflow_error "rows*cols overflows size_t")
        ∧ dense_matrix.mk_from_init r c init
          = .error (.overflow_error "rows*cols overflows size_t"))
    ∧ (a.WF → b.WF → ∀ m', dense_matrix.add a b = .ok m' →
        m'.values.length = m'.row_count * m'.col_count)
    ∧ (b.WF → ∀ m', dense_matrix.multiply si a b algo tile = .ok m' →
        m'.values.length = m'.row_count * m'.col_count)
    ∧ (x.WF → ∀ m', dense_matrix.transpose x = .ok m' →
        m'.values.length = m'.row_count * m'.col_count)
    ∧ (x.WF → ∀ m', dense_matrix.transpose_tile si x tile = .ok m' →
        m'.values.length = m'.row_count * m'.col_count)
    ∧ (a.WF → b.WF →
        (dense_matrix.add_assign a b).1.values.length
          = (dense_matrix.add_assign a b).1.row_count *
            (dense_matrix.add_assign a b).1.col_count) := by
  refine ⟨?_, ?_, ?_, ?_, ?_, ?_, ?_, ?_, ?_⟩
  · intro m' h
    by_cases hle : r * c ≤ USIZE_MAX
    · rw [mk_default_eq, if_pos hle] at h
      injection h with h
      subst h
      simp
    · rw [mk_default_eq, if_neg hle] at h
      exact dm_res.noConfusion h
  · intro m' h
    rw [dense_matrix.mk_from_ptr, safe_count_eq] at h
    by_cases hle : r * c ≤ USIZE_MAX
    · rw [if_pos hle] at h
      simp only [dm_res.bind] at h
      split at h
      · exact dm_res.noConfusion h
      · rename_i hcond
        injection h with h
        subst h
        cases data with
        | some f => simp
        | none =>
          have : r * c = 0 := by
            by_contra hne
            exact hcond ⟨hne, rfl⟩
          simp [this]
    · rw [if_neg hle] at h
      exact dm_res.noConfusion h
  · intro m' h
    rw [dense_matrix.mk_from_init, safe_count_eq] at h
    by_cases hle : r * c ≤ USIZE_MAX
    · rw [if_pos hle] at h
      simp only [dm_res.bind] at h
      split at h
      · exact dm_res.noConfusion h
      · rename_i hcond
        injection h with h
        subst h
        simp only []
        omega
    · rw [if_neg hle] at h
      exact dm_res.noConfusion h
  · intro hgt
    refine ⟨?_, ?_, ?_⟩
    · rw [mk_default_eq, if_neg (by omega)]
    · rw [dense_matrix.mk_from_ptr, safe_count_eq, if_neg (by omega)]
      rfl
    · rw [dense_matrix.mk_from_init, safe_count_eq, if_neg (by omega)]
      rfl
  · intro ha hb m' h
    rw [dense_matrix.add] at h
    by_cases h1 : a.size = 0
    · rw [if_pos h1] at h
      injection h with h
      subst h
      exact hb.1
    · rw [if_neg h1] at h
      by_cases h2 : b.size = 0
      · rw [if_pos h2] at h
        injection h with h
        subst h
        exact ha.1
      · rw [if_neg h2] at h
        by_cases h3 : a.row_count ≠ b.row_count ∨ a.col_count ≠ b.col_count
        · rw [if_pos h3] at h
          exact dm_res.noConfusion h
        · rw [if_neg h3, mk_default_eq, if_pos ha.2] at h
          simp only [dm_res.map] at h
          injection h with h
          subst h
          push_neg at h3
          simp only [List.length_zipWith]
          rw [ha.1, hb.1, h3.1, h3.2]
          exact Nat.min_self _
  · intro hb m' h
    obtain ⟨hk, hmn⟩ := multiply_ok_shapes si a b algo tile m' h
    rw [multiply_eq_spec si a b algo tile hb hk hmn] at h
    injection h with h
    subst h
    simp [dense_matrix.mat_product_spec]
  · intro hx m' h
    rw [transpose_ok x hx] at h
    injection h with h
    subst h
    simp [dense_matrix.transpose_spec]
  · intro hx m' h
    rw [transpose_tile_ok si x tile hx] at h
    injection h with h
    subst h
    simp [dense_matrix.transpose_spec]
  · intro ha hb
    rw [dense_matrix.add_assign]
    split_ifs <;>
      first
        | exact ha.1
        | exact hb.1
        | (simp only []
           rw [add_assign_fold_length]
           exact ha.1)

/-- Witness for C8: the 2^63 × 4 construction is rejected with the overflow
error, and a well-formed construction carries the invariant. -/
theorem C8_shape_invariant_witness :
    dense_matrix.mk_default (α := Int) (2 ^ 63) 4
      = .error (.overflow_error "rows*cols overflows size_t")
    ∧ ((⟨2, 2, List.replicate 4 (0 : Int)⟩ : dense_matrix Int).values.length
        = 2 * 2 ∧ (2 : Nat) = 2 ∧ (2 : Nat) = 2
        ∧ (⟨2, 2, List.replicate 4 (0 : Int)⟩ :
            dense_matrix Int).values.length = 2 * 2) :=
  ⟨((C8_shape_invariant ⟨8, false⟩ .native 0 (2 ^ 63) 4 none []
      (⟨0, 0, []⟩ : dense_matrix Int) ⟨0, 0, []⟩ ⟨0, 0, []⟩).2.2.2.1
      (by norm_num [USIZE_MAX])).1,
    (C8_shape_invariant ⟨8, false⟩ .native 0 2 2 none []
      (⟨0, 0, []⟩ : dense_matrix Int) ⟨0, 0, []⟩ ⟨0, 0, []⟩).1
      ⟨2, 2, List.replicate 4 0⟩ (by decide)⟩

/-- C9: every C ABI entry point is safe under null handles — the queries
return zero and the read/write/multiply entry points return the `null`
status — and no failure escapes the boundary: `dm_mul` converts every
engine-level outcome into a code of the closed status enumeration (the
entry points are total functions into `dm_status` in this embedding, the
image of the catch clauses being `status_of_error`, which never yields
`ok`). -/
theorem C9_api_null_safety {α : Type} [AddCommMonoid α] [Mul α] :
    dm_api.dm_rows (α := α) none = 0
    ∧ dm_api.dm_cols (α := α) none = 0
    ∧ dm_api.dm_size (α := α) none = 0
    ∧ (∀ src vc, dm_api.dm_write (α := α) none src vc = (.null, none))
    ∧ (∀ dn vc, dm_api.dm_read (α := α) none dn vc = (.null, none))
    ∧ (∀ rhs ov, dm_api.dm_mul (α := α) none rhs ov = (.null, none))
    ∧ (∀ lhs ov, dm_api.dm_mul (α := α) lhs none ov = (.null, none))
    ∧ (∀ lhs rhs, dm_api.dm_mul (α := α) lhs rhs false = (.null, none))
    ∧ (∀ (l r : dm_storage α) (cm : dense_matrix α),
        dense_matrix.multiply double_info l.matrix r.matrix .native 0
          = .ok cm →
        dm_api.dm_mul (some l) (some r) true = (.ok, some ⟨cm⟩))
    ∧ (∀ (l r : dm_storage α) (e : dm_error),
        dense_matrix.multiply double_info l.matrix r.matrix .native 0
          = .error e →
        dm_api.dm_mul (some l) (some r) true
          = (dm_api.status_of_error e, none))
    ∧ (∀ e, dm_api.status_of_error e ≠ .ok) := by
  refine ⟨rfl, rfl, rfl, fun src vc => rfl, fun dn vc => rfl, ?_, ?_, ?_,
    ?_, ?_, ?_⟩
  · intro rhs ov
    cases ov
    · rfl
    · cases rhs <;> rfl
  · intro lhs ov
    cases ov
    · rfl
    · cases lhs <;> rfl
  · intro lhs rhs
    rfl
  · intro l r cm h
    have hk : l.matrix.col_count = r.matrix.row_count :=
      (multiply_ok_shapes double_info l.matrix r.matrix .native 0 cm h).1
    rw [dm_api.dm_mul, if_neg (by simp), if_neg (fun hc => hc hk), h]
  · intro l r e h
    by_cases hk : l.matrix.col_count = r.matrix.row_count
    · rw [dm_api.dm_mul, if_neg (by simp), if_neg (fun hc => hc hk), h]
    · have hmm := multiply_mismatch double_info l.matrix r.matrix .native 0 hk
      rw [h] at hmm
      have he := dm_res.error.inj hmm
      rw [dm_api.dm_mul, if_neg (by simp), if_pos hk, he]
      rfl
  · intro e
    cases e <;> simp [dm_api.status_of_error]

/-- Witness for C9: a concrete 2×3 by 3×2 product through the C ABI. -/
theorem C9_api_null_safety_witness :
    dm_api.dm_mul
        (some ⟨⟨2, 3, [1, 2, 3, 4, 5, 6]⟩⟩ : Option (dm_storage Int))
        (some ⟨⟨3, 2, [7, 8, 9, 10, 11, 12]⟩⟩) true
      = (.ok, some ⟨⟨2, 2, [58, 64, 139, 154]⟩⟩) :=
  (C9_api_null_safety (α := Int)).2.2.2.2.2.2.2.2.1
    ⟨⟨2, 3, [1, 2, 3, 4, 5, 6]⟩⟩ ⟨⟨3, 2, [7, 8, 9, 10, 11, 12]⟩⟩
    ⟨2, 2, [58, 64, 139, 154]⟩ (by decide)

/-- C10: for every matrix and every tile argument (including 0 and
oversized tiles), the tiled transpose returns exactly the plain transpose: a
`cols × rows` matrix whose entry `(j, i)` is the source entry `(i, j)`,
including the degenerate single-row/single-column and empty cases (which the
tiled version special-cases). -/
theorem C10_transpose_tile_eq {α : Type} [AddCommMonoid α]
    (si : scalar_info) (x : dense_matrix α) (tile : Nat) (hx : x.WF) :
    dense_matrix.transpose_tile si x tile = dense_matrix.transpose x
    ∧ dense_matrix.transpose_tile si x tile
      = .ok (dense_matrix.transpose_spec x)
    ∧ (dense_matrix.transpose_spec x).row_count = x.col_count
    ∧ (dense_matrix.transpose_spec x).col_count = x.row_count
    ∧ ∀ i, i < x.row_count → ∀ j, j < x.col_count →
        (dense_matrix.transpose_spec x).get j i = x.get i j := by
  refine ⟨(transpose_tile_ok si x tile hx).trans (transpose_ok x hx).symm,
    transpose_tile_ok si x tile hx, rfl, rfl, ?_⟩
  intro i hi j hj
  exact transpose_spec_get x i j hi hj

/-- Witness for C10: a 2×3 integer matrix, tile 2 (and the entry identity at
one index pair). -/
theorem C10_transpose_tile_eq_witness :
    dense_matrix.transpose_tile ⟨8, false⟩
        (⟨2, 3, [1, 2, 3, 4, 5, 6]⟩ : dense_matrix Int) 2
      = dense_matrix.transpose (⟨2, 3, [1, 2, 3, 4, 5, 6]⟩ : dense_matrix Int)
    ∧ dense_matrix.transpose_spec
        (⟨2, 3, [1, 2, 3, 4, 5, 6]⟩ : dense_matrix Int)
      = ⟨3, 2, [1, 4, 2, 5, 3, 6]⟩ :=
  ⟨(C10_transpose_tile_eq ⟨8, false⟩
      (⟨2, 3, [1, 2, 3, 4, 5, 6]⟩ : dense_matrix Int) 2 (by decide)).1,
    by decide⟩
